import Mathlib

/-!
Verification development for the Sai-PnL dashboard's reconciliation engine.

The definitions below are a shallow embedding of the TypeScript source:

* `src/server/routes.ts` — structured-query reconciliation (`convertTrade`,
  `convertTradeHistoryItem`, the `/api/trades` merge loop, win-rate stats,
  endpoint validation, `fetchFeesFromRpc` / `extractFeesFromReceipt`);
* `src/shared/schema.ts` — the event decoder (`decodeAbiString`,
  `parseEventData`) and the log-scan per-transaction reconciliation loop of
  `getAddressTransactions`;
* `src/unnamed/part_002` — `inferPairFromPrice`.

Modelling conventions:

* JavaScript numbers are modelled as `ℚ` (the code only adds, subtracts,
  multiplies, divides and compares; no claim in scope depends on IEEE-754
  rounding).  `undefined` / absent fields are `Option.none`.
* ISO timestamp strings are modelled as rational epoch values (the code only
  ever compares them after `new Date(..).getTime()`).
* JavaScript `Map` objects are modelled as association lists with
  `mapGet` / `mapSet` (keys unique by construction of `mapSet`).
* Fallible JS operations (failed fetches, `JSON.parse` throws, missing
  receipts) are modelled with `Option`; a `try/catch` becomes a `match` on
  the `Option`.
-/

/-! ## JavaScript-semantics helpers -/

/-- Truthiness of an optional JS number: `undefined`, `0` (and `NaN`, which the
modelling excludes) are falsy. -/
def jsTruthyNum (o : Option ℚ) : Bool :=
  match o with
  | none => false
  | some v => decide (v ≠ 0)

/-- JS `s || d` for an optional string: `undefined` and `""` fall back to `d`. -/
def jsStrOr (o : Option String) (d : String) : String :=
  match o with
  | some s => if s = "" then d else s
  | none => d

/-- JS `x || undefined` for an optional number (`0` is falsy and becomes
`undefined`), as in `perpTrade.closePrice || undefined`. -/
def numOrUndef (o : Option ℚ) : Option ℚ :=
  match o with
  | some v => if v = 0 then none else some v
  | none => none

/-- Lookup in a JS `Map` modelled as an association list. -/
def mapGet {α : Type} (m : List (ℕ × α)) (k : ℕ) : Option α :=
  m.lookup k

/-- JS `Map.set`: update in place if the key exists, else append. -/
def mapSet {α : Type} (m : List (ℕ × α)) (k : ℕ) (v : α) : List (ℕ × α) :=
  if (m.lookup k).isSome then
    m.map (fun p => if p.1 = k then (k, v) else p)
  else
    m ++ [(k, v)]

/-! ## Shared data model (`src/shared/schema.ts`, `tradeSchema`)

The `Trade` record: `txHash`, `timestamp` and `type` are required, everything
else optional, exactly as in `tradeSchema`.  The log-scan path additionally
writes a `fees` field and the structured path an `amountReceived` field; both
are optional members of the record. -/

structure Trade where
  txHash : String
  timestamp : ℚ
  type : String
  pair : Option String := none
  direction : Option String := none
  leverage : Option ℚ := none
  collateral : Option ℚ := none
  openPrice : Option ℚ := none
  closePrice : Option ℚ := none
  profitPct : Option ℚ := none
  pnlAmount : Option ℚ := none
  tradeIndex : Option String := none
  openTimestamp : Option ℚ := none
  closeTimestamp : Option ℚ := none
  openingFee : Option ℚ := none
  closingFee : Option ℚ := none
  borrowingFee : Option ℚ := none
  triggerFee : Option ℚ := none
  totalFees : Option ℚ := none
  amountReceived : Option ℚ := none
  fees : Option ℚ := none
  deriving Repr, DecidableEq

/-! ## GraphQL result shapes (`src/server/routes.ts`) -/

/-- Block reference: `{ block, block_ts }`. -/
structure BlockInfo where
  block : ℕ
  block_ts : ℚ
  deriving Repr, DecidableEq

/-- The `state` sub-object of a `PerpTrade` (point-in-time P&L figures). -/
structure PerpState where
  pnlCollateral : ℚ
  pnlPct : ℚ
  pnlCollateralAfterFees : ℚ
  positionValue : ℚ
  liquidationPrice : ℚ
  borrowingFeeCollateral : ℚ
  borrowingFeePct : ℚ
  closingFeeCollateral : ℚ
  closingFeePct : ℚ
  remainingCollateralAfterFees : ℚ
  deriving Repr, DecidableEq

/-- A `PerpTrade` row of the point-in-time trades query.  The nested
`perpBorrowing.baseToken.symbol` chain (each link nullable) is flattened into
`baseTokenSymbol`; no other part of `perpBorrowing` is consumed by the code in
scope. -/
structure PerpTrade where
  id : ℕ
  trader : String
  isOpen : Bool
  isLong : Bool
  tradeType : String
  leverage : ℚ
  collateralAmount : ℚ
  openCollateralAmount : ℚ
  openPrice : ℚ
  closePrice : Option ℚ := none
  sl : Option ℚ := none
  tp : Option ℚ := none
  baseTokenSymbol : Option String := none
  openBlock : Option BlockInfo := none
  closeBlock : Option BlockInfo := none
  state : Option PerpState := none
  deriving Repr, DecidableEq

/-- The nested `trade` object of a trade-history item. -/
structure HistTrade where
  id : ℕ
  isLong : Bool
  leverage : ℚ
  openPrice : ℚ
  closePrice : Option ℚ := none
  baseTokenSymbol : Option String := none
  deriving Repr, DecidableEq

/-- A row of the trade-history (change-log) query. -/
structure TradeHistoryItem where
  id : ℕ
  tradeChangeType : String
  evmTxHash : Option String := none
  block : BlockInfo
  trade : HistTrade
  realizedPnlCollateral : Option ℚ := none
  realizedPnlPct : Option ℚ := none
  deriving Repr, DecidableEq

/-- Realized-P&L map entry (`pnlMap` values in `registerRoutes`). -/
structure PnlEntry where
  pnlPct : ℚ
  pnlAmount : ℚ
  deriving Repr, DecidableEq

/-- Per-trade fee data resolved from RPC receipts (`TradeFees`). -/
structure TradeFees where
  openingFee : ℚ
  closingFee : ℚ
  triggerFee : ℚ
  deriving Repr, DecidableEq

/-! ## `convertTrade` (`src/server/routes.ts`, lines 388-449)

`new Date().toISOString()` is modelled by the explicit `now` parameter. -/

def convertTrade (now : ℚ) (pt : PerpTrade) (pnlMap : List (ℕ × PnlEntry))
    (feeMap : List (ℕ × TradeFees)) : Trade :=
  let isOpen := pt.isOpen
  let timestamp :=
    if isOpen then (pt.openBlock.map BlockInfo.block_ts).getD now
    else (((pt.closeBlock.map BlockInfo.block_ts) <|>
           (pt.openBlock.map BlockInfo.block_ts)).getD now)
  let t0 : Trade :=
    { txHash := "trade-" ++ toString pt.id
      timestamp := timestamp
      type := if isOpen then "open" else "close"
      pair := some (jsStrOr pt.baseTokenSymbol "Unknown")
      direction := some (if pt.isLong then "long" else "short")
      leverage := some pt.leverage
      collateral := some (pt.openCollateralAmount / 1000000)
      openPrice := some pt.openPrice
      tradeIndex := some (toString pt.id)
      openTimestamp := pt.openBlock.map BlockInfo.block_ts
      closeTimestamp := pt.closeBlock.map BlockInfo.block_ts }
  let t1 :=
    match mapGet feeMap pt.id with
    | some fees =>
        { t0 with openingFee := some fees.openingFee
                  closingFee := some fees.closingFee
                  triggerFee := some fees.triggerFee
                  totalFees := some (fees.openingFee + fees.closingFee + fees.triggerFee) }
    | none => t0
  let t2 :=
    match pt.state with
    | some st =>
        let bf := st.borrowingFeeCollateral / 1000000
        { t1 with borrowingFee := some bf
                  totalFees := match t1.totalFees with
                               | some tf => some (tf + bf)
                               | none => some bf }
    | none => t1
  if isOpen then t2
  else
    let t3 := { t2 with closePrice := numOrUndef pt.closePrice }
    let t4 :=
      match pt.state with
      | some st =>
          { t3 with profitPct := some st.pnlPct
                    pnlAmount := some (st.pnlCollateralAfterFees / 1000000) }
      | none =>
          match mapGet pnlMap pt.id with
          | some pd => { t3 with profitPct := some pd.pnlPct, pnlAmount := some pd.pnlAmount }
          | none => t3
    match t4.collateral, t4.pnlAmount with
    | some c, some p => { t4 with amountReceived := some (c + p) }
    | _, _ => t4

/-! ## `convertTradeHistoryItem` (`src/server/routes.ts`, lines 452-483) -/

/-- Close-event change types (`closeTypes` in the source). -/
def closeChangeTypes : List String :=
  ["position_closed_user", "position_closed_sl", "position_closed_tp", "position_liquidated"]

def convertTradeHistoryItem (item : TradeHistoryItem) : Option Trade :=
  if ¬ (closeChangeTypes.contains item.tradeChangeType) then none
  else
    let t0 : Trade :=
      { txHash := "history-" ++ toString item.id
        timestamp := item.block.block_ts
        type := "close"
        pair := some (jsStrOr item.trade.baseTokenSymbol "Unknown")
        direction := some (if item.trade.isLong then "long" else "short")
        leverage := some item.trade.leverage
        openPrice := some item.trade.openPrice
        closePrice := numOrUndef item.trade.closePrice
        tradeIndex := some (toString item.trade.id) }
    let t1 :=
      match item.realizedPnlPct with
      | some p => { t0 with profitPct := some p }
      | none => t0
    let t2 :=
      match item.realizedPnlCollateral with
      | some c => { t1 with pnlAmount := some (c / 1000000) }
      | none => t1
    let t3 :=
      match t2.collateral, t2.pnlAmount with
      | some c, some p => { t2 with amountReceived := some (c + p) }
      | _, _ => t2
    some t3

/-! ## The `/api/trades` merge loop (`src/server/routes.ts`, lines 559-594) -/

/-- Build the realized-P&L map from the change-log (lines 560-569). -/
def buildPnlMap (history : List TradeHistoryItem) : List (ℕ × PnlEntry) :=
  history.foldl
    (fun m item =>
      if closeChangeTypes.contains item.tradeChangeType && item.realizedPnlPct.isSome then
        mapSet m item.trade.id
          { pnlPct := item.realizedPnlPct.getD 0
            pnlAmount := (item.realizedPnlCollateral.getD 0) / 1000000 }
      else m)
    []

/-- First loop: seed from the point-in-time trades query (lines 576-580),
returning the output list together with the `seenTradeIds` set. -/
def seedFromTrades (now : ℚ) (pts : List PerpTrade) (pnlMap : List (ℕ × PnlEntry))
    (feeMap : List (ℕ × TradeFees)) : List Trade × List ℕ :=
  pts.foldl
    (fun acc pt => (acc.1 ++ [convertTrade now pt pnlMap feeMap], acc.2 ++ [pt.id]))
    ([], [])

/-- Second loop: add closed trades from the change-log that are not already
seen (lines 583-591). -/
def addHistoryTrades (history : List TradeHistoryItem) (acc : List Trade × List ℕ) :
    List Trade × List ℕ :=
  history.foldl
    (fun acc item =>
      if acc.2.contains item.trade.id then acc
      else
        match convertTradeHistoryItem item with
        | some t => (acc.1 ++ [t], acc.2 ++ [item.trade.id])
        | none => acc)
    acc

/-- Sort comparator: timestamp descending (line 594). -/
def tsDesc (a b : Trade) : Bool :=
  decide (b.timestamp ≤ a.timestamp)

/-- The full reconciliation of one `/api/trades` request (given the already
fetched query results and fee map): seed, layer in history, sort. -/
def reconcileTrades (now : ℚ) (pts : List PerpTrade) (history : List TradeHistoryItem)
    (feeMap : List (ℕ × TradeFees)) : List Trade :=
  let pnlMap := buildPnlMap history
  let seeded := seedFromTrades now pts pnlMap feeMap
  let merged := addHistoryTrades history seeded
  merged.1.mergeSort tsDesc

/-! ## Aggregate stats (`src/server/routes.ts`, lines 596-600) -/

/-- Predicate for the win-rate denominator: `t.type === "close" &&
t.profitPct !== undefined`. -/
def isCloseWithPnl (t : Trade) : Bool :=
  decide (t.type = "close") && t.profitPct.isSome

/-- Win predicate on a member of the denominator: `(t.profitPct ?? 0) > 0`. -/
def isWin (t : Trade) : Bool :=
  decide (0 < t.profitPct.getD 0)

/-- The win-rate computation of the `/api/trades` handler. -/
def winRate (trades : List Trade) : ℚ :=
  let closeTrades := trades.filter isCloseWithPnl
  let wins := (closeTrades.filter isWin).length
  if closeTrades.length > 0 then (wins : ℚ) / (closeTrades.length : ℚ) else 0

/-! ## Endpoint validation (`src/server/routes.ts`, lines 490-514 and 619-635) -/

/-- Outcome of the validation phase of a request handler: either a 400
client error is returned, or the handler proceeds to issue upstream
GraphQL/RPC calls. -/
inductive HandlerOutcome where
  | badRequest (msg : String)
  | upstream
  deriving Repr, DecidableEq

/-- One character of `[a-fA-F0-9]`. -/
def isHexDigitChar (c : Char) : Bool :=
  c.isDigit || (decide ('a' ≤ c) && decide (c ≤ 'f')) || (decide ('A' ≤ c) && decide (c ≤ 'F'))

/-- The address gate `/^0x[a-fA-F0-9]{40}$/i` of the trades endpoint (the `i`
flag makes the `0x` prefix case-insensitive). -/
def isValidEvmAddress (s : String) : Bool :=
  let cs := s.toList
  decide (cs.length = 42) &&
    (match cs with
     | c0 :: c1 :: rest =>
         decide (c0 = '0') && (decide (c1 = 'x') || decide (c1 = 'X')) && rest.all isHexDigitChar
     | _ => false)

/-- Validation phase of `GET /api/trades` (lines 490-514): address required,
address format checked, network checked; only then are upstream calls issued. -/
def tradesEndpointGate (address : Option String) (network : Option String) : HandlerOutcome :=
  let net := jsStrOr network "mainnet"
  match address with
  | none => .badRequest "Address is required"
  | some a =>
      if a = "" then .badRequest "Address is required"
      else if ¬ (isValidEvmAddress a) then .badRequest "Invalid EVM address format"
      else if net ≠ "mainnet" ∧ net ≠ "testnet" then .badRequest "Invalid network"
      else .upstream

/-- The property names every plain JS object inherits from `Object.prototype`.
A bracket lookup `obj[key]` consults the prototype chain, so for an object
literal like `NETWORKS` these keys resolve to inherited members (methods, and
`Object.prototype` itself for `__proto__`), all of which are truthy values. -/
def objectPrototypeProps : List String :=
  ["constructor", "hasOwnProperty", "isPrototypeOf", "propertyIsEnumerable",
   "toLocaleString", "toString", "valueOf", "__proto__",
   "__defineGetter__", "__defineSetter__", "__lookupGetter__", "__lookupSetter__"]

/-- Truthiness of the JS lookup `NETWORKS[network]` (line 627): truthy when
`network` is an own key (`"mainnet"`/`"testnet"`, line 7-18) or an inherited
`Object.prototype` member reached through the prototype chain. -/
def jsObjectLookupTruthy (network : String) : Bool :=
  network = "mainnet" || network = "testnet" || objectPrototypeProps.contains network

/-- A well-formed EVM address (`0x` + 40 hex digits), for concrete inputs. -/
def demoValidAddress : String := "0xabcdef0123456789abcdef0123456789abcdef01"

/-- Validation phase of `GET /api/positions` (lines 619-635): address required,
then `if (!networkConfig)` with `networkConfig = NETWORKS[network]` — a
prototype-chain lookup, so inherited `Object.prototype` member names also pass
this gate. `.upstream` means the handler proceeds past validation to the
GraphQL fetch (for a prototype-inherited `network` the fetch target
`networkConfig.graphql` is `undefined`, so that fetch fails into the handler's
`catch` and the response is 500, never 400). The address FORMAT is not checked
before the upstream GraphQL query is attempted. -/
def positionsEndpointGate (address : Option String) (network : Option String) : HandlerOutcome :=
  let net := jsStrOr network "mainnet"
  match address with
  | none => .badRequest "Address is required"
  | some a =>
      if a = "" then .badRequest "Address is required"
      else if ¬ (jsObjectLookupTruthy net) then .badRequest "Invalid network"
      else .upstream

/-! ## Event decoder (`src/shared/schema.ts`, lines 1761-1885)

The hex payload machinery is modelled on `List Char` / `List ℕ` so that every
definition evaluates inside the kernel. -/

def lbrace : Char := Char.ofNat 123

def rbrace : Char := Char.ofNat 125

def dquote : Char := Char.ofNat 34

def bslash : Char := Char.ofNat 92

/-- Numeric value of one `[0-9a-fA-F]` character. -/
def hexDigitVal (c : Char) : Option ℕ :=
  if c.isDigit then some (c.toNat - 48)
  else if ('a' ≤ c) ∧ (c ≤ 'f') then some (c.toNat - 87)
  else if ('A' ≤ c) ∧ (c ≤ 'F') then some (c.toNat - 55)
  else none

/-- JS `parseInt(s, 16)`: value of the maximal leading run of hex digits,
`none` for `NaN` (no leading hex digit).  Sign and leading-whitespace handling
of `parseInt` is not modelled: all call sites pass slices of hex payloads. -/
def parseIntHex (cs : List Char) : Option ℕ :=
  match cs with
  | [] => none
  | c :: _ =>
      if (hexDigitVal c).isNone then none
      else some ((cs.takeWhile (fun c => (hexDigitVal c).isSome)).foldl
                   (fun a c => 16 * a + (hexDigitVal c).getD 0) 0)

/-- JS `String.prototype.substring`: both indices are clamped to the string
length and swapped when out of order. -/
def jsSubstring (cs : List Char) (a b : ℕ) : List Char :=
  let len := cs.length
  let lo := min (min a len) (min b len)
  let hi := max (min a len) (min b len)
  (cs.drop lo).take (hi - lo)

/-- Split into the 2-character slices `substr(i, 2)` of the byte-decoding
loops (a trailing odd character yields a 1-character slice). -/
def chunkPairs : List Char → List (List Char)
  | [] => []
  | [c] => [[c]]
  | a :: b :: rest => [a, b] :: chunkPairs rest

/-- The Unicode replacement character emitted by `TextDecoder` for invalid
byte sequences. -/
def replacementChar : Char := Char.ofNat 65533

/-- UTF-8 continuation byte test. -/
def contByte (b : ℕ) : Bool :=
  decide (128 ≤ b) && decide (b < 192)

/-- One step of UTF-8 decoding: decode the character led by `b`, returning it
together with the number of EXTRA bytes consumed from `rest`. -/
def utf8Step (b : ℕ) (rest : List ℕ) : Char × ℕ :=
  if b < 128 then (Char.ofNat b, 0)
  else if 192 ≤ b ∧ b < 224 then
    match rest with
    | b2 :: _ =>
        if contByte b2 then
          let cp := (b - 192) * 64 + (b2 - 128)
          if cp < 128 then (replacementChar, 1) else (Char.ofNat cp, 1)
        else (replacementChar, 0)
    | [] => (replacementChar, 0)
  else if 224 ≤ b ∧ b < 240 then
    match rest with
    | b2 :: b3 :: _ =>
        if contByte b2 && contByte b3 then
          let cp := (b - 224) * 4096 + (b2 - 128) * 64 + (b3 - 128)
          if cp < 2048 ∨ (55296 ≤ cp ∧ cp < 57344) then (replacementChar, 2)
          else (Char.ofNat cp, 2)
        else (replacementChar, 0)
    | _ => (replacementChar, rest.length)
  else if 240 ≤ b ∧ b < 248 then
    match rest with
    | b2 :: b3 :: b4 :: _ =>
        if contByte b2 && contByte b3 && contByte b4 then
          let cp := (b - 240) * 262144 + (b2 - 128) * 4096 + (b3 - 128) * 64 + (b4 - 128)
          if cp < 65536 ∨ 1114112 ≤ cp then (replacementChar, 3)
          else (Char.ofNat cp, 3)
        else (replacementChar, 0)
    | _ => (replacementChar, rest.length)
  else (replacementChar, 0)

/-- UTF-8 decoding with replacement-character substitution, modelling a
non-fatal `TextDecoder` (which never throws).  Truncated multi-byte sequences
are replaced; the exact per-byte replacement count of the WHATWG algorithm is
simplified to one replacement per invalid sequence. -/
def utf8Decode : List ℕ → List Char
  | [] => []
  | b :: rest =>
      let s := utf8Step b rest
      s.1 :: utf8Decode (rest.drop s.2)
  termination_by l => l.length
  decreasing_by
    simp only [List.length_cons, List.length_drop]
    omega

/-- `decodeAbiString` (lines 1761-1799).  `TextDecoder.decode` never throws in
non-fatal mode, so the `catch` fallbacks of the source (ASCII filtering) are
unreachable and the model decodes unconditionally with `utf8Decode`.  In the
length-prefixed path a `NaN` length makes `substring(128, NaN)` evaluate to
`substring(0, 128)` (JS clamps `NaN` to `0` and swaps the indices), and the
`NaN` bytes pushed by `parseInt` become `0` inside `new Uint8Array`; in the
short-input path `NaN` bytes pass the `byte !== 0` filter and also become
`0`. -/
def decodeAbiString (hex : String) : String :=
  let cs0 := hex.toList
  let cleanHex := if ['0', 'x'].isPrefixOf cs0 then cs0.drop 2 else cs0
  if 128 ≤ cleanHex.length then
    let lengthHex := jsSubstring cleanHex 64 128
    let dataHex :=
      match parseIntHex lengthHex with
      | some len => jsSubstring cleanHex 128 (128 + len * 2)
      | none => jsSubstring cleanHex 0 128
    String.mk (utf8Decode ((chunkPairs dataHex).map (fun p => (parseIntHex p).getD 0)))
  else
    String.mk (utf8Decode ((((chunkPairs cleanHex).map parseIntHex).filter
      (fun b => b ≠ some 0)).map (fun b => b.getD 0)))

/-! ### A JSON value model and a strict parser for `JSON.parse` -/

inductive JVal where
  | jnull
  | jbool (b : Bool)
  | jnum (lexeme : String)
  | jstr (s : String)
  | jarr (xs : List JVal)
  | jobj (fields : List (String × JVal))

/-- Lookup of a field of a parsed JSON object. -/
def jlookup (fields : List (String × JVal)) (key : String) : Option JVal :=
  (fields.find? (fun p => p.1 = key)).map Prod.snd

/-- Insert a field, overwriting an earlier duplicate key in place (the
`JSON.parse` duplicate-key semantics: the last value wins). -/
def objInsert (fields : List (String × JVal)) (k : String) (v : JVal) : List (String × JVal) :=
  if fields.any (fun p => p.1 = k) then
    fields.map (fun p => if p.1 = k then (k, v) else p)
  else fields ++ [(k, v)]

/-- JSON insignificant whitespace. -/
def skipWs (cs : List Char) : List Char :=
  cs.dropWhile (fun c => c = ' ' ∨ c = '\t' ∨ c = '\n' ∨ c = '\r')

/-- Four hex digits of a `\uXXXX` escape. -/
def parseHex4 (cs : List Char) : Option (ℕ × List Char) :=
  match cs with
  | a :: b :: c :: d :: rest =>
      match hexDigitVal a, hexDigitVal b, hexDigitVal c, hexDigitVal d with
      | some va, some vb, some vc, some vd =>
          some (((va * 16 + vb) * 16 + vc) * 16 + vd, rest)
      | _, _, _, _ => none
  | _ => none

/-- Body of a JSON string literal after the opening quote, with fuel (every
call site passes more fuel than there are input characters, and each step
consumes at least one character, so the fuel never runs out on real input).
Lone `\uXXXX` surrogate code units (which JSON.parse keeps as UTF-16 units)
are replaced by the replacement character, since `Char` holds scalar values
only; no claim depends on surrogate content. -/
def parseJStrBody : ℕ → List Char → Option (List Char × List Char)
  | 0, _ => none
  | _ + 1, [] => none
  | fuel + 1, c :: rest =>
      if c = dquote then some ([], rest)
      else if c = bslash then
        match rest with
        | [] => none
        | e :: rest2 =>
            let esc : Option (Char × List Char) :=
              if e = dquote then some (dquote, rest2)
              else if e = bslash then some (bslash, rest2)
              else if e = '/' then some ('/', rest2)
              else if e = 'b' then some (Char.ofNat 8, rest2)
              else if e = 'f' then some (Char.ofNat 12, rest2)
              else if e = 'n' then some (Char.ofNat 10, rest2)
              else if e = 'r' then some (Char.ofNat 13, rest2)
              else if e = 't' then some (Char.ofNat 9, rest2)
              else if e = 'u' then
                match parseHex4 rest2 with
                | some (cp, rest3) =>
                    if 55296 ≤ cp ∧ cp < 57344 then some (replacementChar, rest3)
                    else some (Char.ofNat cp, rest3)
                | none => none
              else none
            match esc with
            | some (ch, rest3) =>
                match parseJStrBody fuel rest3 with
                | some (body, rest4) => some (ch :: body, rest4)
                | none => none
            | none => none
      else if c.toNat < 32 then none
      else
        match parseJStrBody fuel rest with
        | some (body, rest2) => some (c :: body, rest2)
        | none => none

/-- Lexeme of a JSON number: `-?(0|[1-9][0-9]*)(\.[0-9]+)?([eE][+-]?[0-9]+)?`. -/
def parseJNum (cs : List Char) : Option (List Char × List Char) :=
  let sign : List Char × List Char :=
    match cs with
    | c :: rest => if c = '-' then ([c], rest) else ([], cs)
    | [] => ([], cs)
  let intPart := sign.2.takeWhile Char.isDigit
  let afterInt := sign.2.drop intPart.length
  if intPart = [] then none
  else if 2 ≤ intPart.length ∧ intPart.headD '0' = '0' then none
  else
    let fracLex : Option (List Char × List Char) :=
      match afterInt with
      | c :: rest =>
          if c = '.' then
            let digs := rest.takeWhile Char.isDigit
            if digs = [] then none else some ('.' :: digs, rest.drop digs.length)
          else some ([], afterInt)
      | [] => some ([], afterInt)
    match fracLex with
    | none => none
    | some (frac, afterFrac) =>
        let expLex : Option (List Char × List Char) :=
          match afterFrac with
          | c :: rest =>
              if c = 'e' ∨ c = 'E' then
                let signCs : List Char × List Char :=
                  match rest with
                  | s :: r2 => if s = '+' ∨ s = '-' then ([s], r2) else ([], rest)
                  | [] => ([], rest)
                let digs := signCs.2.takeWhile Char.isDigit
                if digs = [] then none
                else some (c :: signCs.1 ++ digs, signCs.2.drop digs.length)
              else some ([], afterFrac)
          | [] => some ([], afterFrac)
        match expLex with
        | none => none
        | some (ex, rest) => some (sign.1 ++ intPart ++ frac ++ ex, rest)

mutual

/-- Parse one JSON value (fuelled recursive descent; the fuel passed at the
top level exceeds the input length, so it never runs out on real input). -/
def parseJVal : ℕ → List Char → Option (JVal × List Char)
  | 0, _ => none
  | _ + 1, [] => none
  | fuel + 1, c :: cs =>
      if c = lbrace then
        match skipWs cs with
        | d :: ds =>
            if d = rbrace then some (.jobj [], ds)
            else parseJObjFields fuel [] (skipWs cs)
        | [] => none
      else if c = '[' then
        match skipWs cs with
        | d :: ds =>
            if d = ']' then some (.jarr [], ds)
            else parseJArrElems fuel [] (skipWs cs)
        | [] => none
      else if c = dquote then
        match parseJStrBody (cs.length + 1) cs with
        | some (body, rest) => some (.jstr (String.mk body), rest)
        | none => none
      else if c = 't' then
        match cs with
        | 'r' :: 'u' :: 'e' :: rest => some (.jbool true, rest)
        | _ => none
      else if c = 'f' then
        match cs with
        | 'a' :: 'l' :: 's' :: 'e' :: rest => some (.jbool false, rest)
        | _ => none
      else if c = 'n' then
        match cs with
        | 'u' :: 'l' :: 'l' :: rest => some (.jnull, rest)
        | _ => none
      else
        match parseJNum (c :: cs) with
        | some (lex, rest) => some (.jnum (String.mk lex), rest)
        | none => none

/-- Parse the members of a JSON object, positioned at the first key. -/
def parseJObjFields : ℕ → List (String × JVal) → List Char → Option (JVal × List Char)
  | 0, _, _ => none
  | fuel + 1, acc, cs =>
      match cs with
      | c :: cs2 =>
          if c = dquote then
            match parseJStrBody (cs2.length + 1) cs2 with
            | some (keyCs, rest) =>
                match skipWs rest with
                | ':' :: rest2 =>
                    match parseJVal fuel (skipWs rest2) with
                    | some (v, rest3) =>
                        let acc2 := objInsert acc (String.mk keyCs) v
                        match skipWs rest3 with
                        | ',' :: rest4 => parseJObjFields fuel acc2 (skipWs rest4)
                        | d :: rest4 =>
                            if d = rbrace then some (.jobj acc2, rest4) else none
                        | [] => none
                    | none => none
                | _ => none
            | none => none
          else none
      | [] => none

/-- Parse the elements of a JSON array, positioned at the first element. -/
def parseJArrElems : ℕ → List JVal → List Char → Option (JVal × List Char)
  | 0, _, _ => none
  | fuel + 1, acc, cs =>
      match parseJVal fuel cs with
      | some (v, rest) =>
          match skipWs rest with
          | ',' :: rest2 => parseJArrElems fuel (acc ++ [v]) (skipWs rest2)
          | ']' :: rest2 => some (.jarr (acc ++ [v]), rest2)
          | _ => none
      | none => none

end

/-- `JSON.parse`: parse one value surrounded by optional whitespace; any
unparsed trailing input is an error (a throw, modelled as `none`). -/
def jsonParse (s : String) : Option JVal :=
  match parseJVal (s.toList.length + 1) (skipWs s.toList) with
  | some (v, rest) => if skipWs rest = [] then some v else none
  | none => none

/-! ### Balanced-brace span and regex fallback (`parseEventData`, lines 1802-1885) -/

/-- Scan for the matching close brace by naive depth counting (braces inside
string literals count too, exactly as in the source loop), accumulating the
scanned characters; `none` models `jsonEnd === -1`. -/
def scanToClose : List Char → ℕ → List Char → Option (List Char)
  | [], _, _ => none
  | c :: rest, depth, acc =>
      if c = lbrace then scanToClose rest (depth + 1) (acc ++ [c])
      else if c = rbrace then
        if depth = 1 then some (acc ++ [c])
        else scanToClose rest (depth - 1) (acc ++ [c])
      else scanToClose rest depth (acc ++ [c])

/-- The `jsonStr` slice of `parseEventData`: from the first `\x7b` to its
matching `\x7d` by naive depth counting. -/
def findJsonSpan (text : String) : Option String :=
  let tail := text.toList.dropWhile (fun c => ¬ (c = lbrace))
  match tail with
  | [] => none
  | _ :: _ => (scanToClose tail 0 []).map String.mk

/-- Match a literal character pattern, returning the rest of the input. -/
def matchLit : List Char → List Char → Option (List Char)
  | [], cs => some cs
  | _ :: _, [] => none
  | p :: ps, c :: cs => if c = p then matchLit ps cs else none

/-- Match the regex `"key"\s*:\s*"([^"]+)"` anchored at the current position,
returning the capture.  JS `\s` is modelled by `Char.isWhitespace`. -/
def matchFieldAt (key : List Char) (cs : List Char) : Option (List Char) :=
  match matchLit (dquote :: key ++ [dquote]) cs with
  | none => none
  | some r1 =>
      match r1.dropWhile Char.isWhitespace with
      | c :: r3 =>
          if c = ':' then
            match r3.dropWhile Char.isWhitespace with
            | q :: r5 =>
                if q = dquote then
                  let cap := r5.takeWhile (fun c => ¬ (c = dquote))
                  if cap ≠ [] ∧ r5.drop cap.length ≠ [] then some cap else none
                else none
            | [] => none
          else none
      | [] => none

/-- First match of `"key"\s*:\s*"([^"]+)"` anywhere in the input. -/
def findField (key : String) : List Char → Option String
  | [] => none
  | c :: cs =>
      match matchFieldAt key.toList (c :: cs) with
      | some cap => some (String.mk cap)
      | none => findField key cs

/-- Match the tail of `/"long"\s*:\s*(true|false|"true"|"false")/` after the
key, returning the capture with quotes already stripped (the source applies
`.replace(/"/g, '')` to the capture). -/
def matchLongAt (cs : List Char) : Option String :=
  match matchLit (dquote :: "long".toList ++ [dquote]) cs with
  | none => none
  | some r1 =>
      match r1.dropWhile Char.isWhitespace with
      | c :: r3 =>
          if c = ':' then
            let r4 := r3.dropWhile Char.isWhitespace
            if ("true".toList.isPrefixOf r4) then some "true"
            else if ("false".toList.isPrefixOf r4) then some "false"
            else if ((dquote :: "true".toList ++ [dquote]).isPrefixOf r4) then some "true"
            else if ((dquote :: "false".toList ++ [dquote]).isPrefixOf r4) then some "false"
            else none
          else none
      | [] => none

/-- First match of the `long` alternation regex anywhere in the input. -/
def findLongField : List Char → Option String
  | [] => none
  | c :: cs =>
      match matchLongAt (c :: cs) with
      | some v => some v
      | none => findLongField cs

/-- The regex-fallback extraction (lines 1833-1879): the fixed key set, in the
source's insertion order; only recovered fields are present. -/
def extractFields (jsonCs : List Char) : List (String × JVal) :=
  let add := fun (acc : List (String × JVal)) (key : String) (v : Option String) =>
    match v with
    | some s => acc ++ [(key, JVal.jstr s)]
    | none => acc
  let r : List (String × JVal) := []
  let r := add r "eventType" (findField "eventType" jsonCs)
  let r := add r "profit_pct" (findField "profit_pct" jsonCs)
  let r := add r "close_price" (findField "close_price" jsonCs)
  let r := add r "collateral_left" (findField "collateral_left" jsonCs)
  let r := add r "final_closing_fee" (findField "final_closing_fee" jsonCs)
  let r := add r "final_trigger_fee" (findField "final_trigger_fee" jsonCs)
  let r := add r "collateral_sent_to_trader" (findField "collateral_sent_to_trader" jsonCs)
  let r := add r "available_collateral" (findField "available_collateral" jsonCs)
  let r := add r "action" (findField "action" jsonCs)
  let r := add r "long" (findLongField jsonCs)
  let r := add r "collateral" (findField "collateral" jsonCs)
  r

/-- `parseEventData` (lines 1802-1885): decode the hex payload, slice the
first balanced-brace span, JSON-parse it strictly, and fall back to the
regex field extraction; `none` models the `null` returns.  The function is
total — the outer `try/catch` of the source can never be reached by a throw,
which is the "never throws" contract. -/
def parseEventData (data : String) : Option JVal :=
  let text := decodeAbiString data
  match findJsonSpan text with
  | none => none
  | some jsonStr =>
      match jsonParse jsonStr with
      | some v => some v
      | none =>
          let fields := extractFields jsonStr.toList
          if fields.isEmpty then none else some (JVal.jobj fields)

/-! ## Log-scan per-transaction reconciliation
(`getAddressTransactions`, `src/shared/schema.ts`, lines 2005-2166)

The loop consumes the decoded JSON payloads (`log.parsedData`).  `EventData`
is the projection of such a payload onto the fields the loop reads: numeric
payload fields (decimal strings in the JSON) are carried as their `parseFloat`
values, so `some v` means "present with numeric value `v`"; the `long` field
is carried as the boolean encoded by `"true"`/`true`, matching the test
`eventData.long === "true" || eventData.long === true`. -/

structure EventData where
  eventType : Option String := none
  open_price : Option ℚ := none
  long : Option Bool := none
  leverage : Option ℚ := none
  collateral : Option ℚ := none
  position_size_collateral : Option ℚ := none
  user_trade_index : Option String := none
  trade_index : Option String := none
  close_price : Option ℚ := none
  profit_pct : Option ℚ := none
  global_trade_index : Option String := none
  pending_order_type : Option String := none
  collateral_sent_to_trader : Option ℚ := none
  available_collateral : Option ℚ := none
  action : Option String := none
  final_closing_fee : Option ℚ := none
  final_trigger_fee : Option ℚ := none
  collateral_left : Option ℚ := none
  trade_value_collateral : Option ℚ := none
  collateral_left_in_storage : Option ℚ := none
  vault_closing_fee : Option ℚ := none
  trigger_fee_collateral : Option ℚ := none
  gov_fee : Option ℚ := none
  openField : Option String := none
  deriving Repr, DecidableEq

/-- Substring containment on lists (JS `String.prototype.includes`). -/
def listInfix {α : Type} [DecidableEq α] (pat : List α) : List α → Bool
  | [] => pat.isEmpty
  | c :: rest => pat.isPrefixOf (c :: rest) || listInfix pat rest

/-- JS `s.includes(pat)`. -/
def containsSubstr (s pat : String) : Bool :=
  listInfix pat.toList s.toList

/-- JS `s.toLowerCase()` (ASCII range; the event types are ASCII). -/
def lowerStr (s : String) : String :=
  String.mk (s.toList.map Char.toLower)

/-- The lowercased event type: `(eventData.eventType || "").toLowerCase()`. -/
def eventTypeLower (e : EventData) : String :=
  lowerStr (jsStrOr e.eventType "")

/-- JS `String(v)` on a parsed JSON value.  Arrays are approximated by `""`
(JS joins the elements); no claim consumes this on arrays. -/
def jsToStringJVal : JVal → String
  | .jstr s => s
  | .jnum lx => lx
  | .jbool b => if b then "true" else "false"
  | .jnull => "null"
  | .jobj _ => "[object Object]"
  | .jarr _ => ""

/-- JS truthiness of a parsed JSON value (`"0"` as a string is truthy). -/
def jvalTruthy : JVal → Bool
  | .jnull => false
  | .jbool b => b
  | .jstr s => ¬ (s = "")
  | .jnum lx => ¬ (lx = "0" ∨ lx = "-0")
  | .jobj _ => true
  | .jarr _ => true

/-- `eventData.global_trade_index` handling inside the `close_order` branch
(lines 2052-2061): replace single quotes by double quotes, `JSON.parse`, use
`user_trade_index || String(indexData)`; a parse throw falls back to
`String(eventData.global_trade_index)`, i.e. the string itself. -/
def parseGlobalTradeIndex (g : String) : String :=
  let replaced := String.mk (g.toList.map (fun c => if c = Char.ofNat 39 then dquote else c))
  match jsonParse replaced with
  | some j =>
      match j with
      | .jobj fields =>
          match jlookup fields "user_trade_index" with
          | some v => if jvalTruthy v then jsToStringJVal v else jsToStringJVal j
          | none => jsToStringJVal j
      | _ => jsToStringJVal j
  | none => g

/-! ### The per-event branches (each `if` block of the loop, lines 2020-2154) -/

/-- Event-type test of the open branch (line 2023). -/
def isOpenEventType (et : String) : Bool :=
  containsSubstr et "register_trade" || containsSubstr et "open_trade" ||
    containsSubstr et "trigger_trade/register_trade"

/-- Open-trade branch (lines 2023-2041). -/
def applyOpenBranch (e : EventData) (et : String) (t : Trade) : Trade :=
  if isOpenEventType et then
    let t := { t with type := "open" }
    let t := match e.open_price with
             | some p => { t with openPrice := some p }
             | none => t
    let t := match e.long with
             | some b => { t with direction := some (if b then "long" else "short") }
             | none => t
    let t := match e.leverage with
             | some l => { t with leverage := some l }
             | none => t
    let t := match e.collateral <|> e.position_size_collateral with
             | some c => { t with collateral := some c }
             | none => t
    let t := match e.user_trade_index <|> e.trade_index with
             | some i => { t with tradeIndex := some i }
             | none => t
    t
  else t

/-- Close-order branch (lines 2044-2062): fires for any event type containing
`close_order` or `user_close`. -/
def applyCloseOrderBranch (e : EventData) (et : String) (t : Trade) : Trade :=
  if containsSubstr et "close_order" || containsSubstr et "user_close" then
    let t := { t with type := "close" }
    let t := match e.close_price with
             | some p => { t with closePrice := some p }
             | none => t
    let t := match e.profit_pct with
             | some p => { t with profitPct := some p }
             | none => t
    let t := match e.global_trade_index with
             | some g => { t with tradeIndex := some (parseGlobalTradeIndex g) }
             | none => t
    t
  else t

/-- Dedicated `user_close_order` branch (lines 2065-2074). -/
def applyUserCloseOrderBranch (e : EventData) (et : String) (t : Trade) : Trade :=
  if containsSubstr et "user_close_order" then
    let t := { t with type := "close" }
    let t := match e.close_price with
             | some p => { t with closePrice := some p }
             | none => t
    let t := match e.profit_pct with
             | some p => { t with profitPct := some p }
             | none => t
    t
  else t

/-- Market-close fallback branch (lines 2077-2085): only fills `closePrice`
and `profitPct` when still unset (`!trade.closePrice` is JS-falsy, so a
`closePrice` of `0` also counts as unset there). -/
def applyMarketCloseBranch (e : EventData) (et : String) (t : Trade) : Trade :=
  if containsSubstr et "pending_order_type" && (e.pending_order_type == some "market_close") then
    let t := { t with type := "close" }
    let t := if e.close_price.isSome && ¬ (jsTruthyNum t.closePrice) then
               { t with closePrice := e.close_price }
             else t
    let t := if e.profit_pct.isSome && t.profitPct.isNone then
               { t with profitPct := e.profit_pct }
             else t
    t
  else t

/-- `handle_trade_pnl` branch (lines 2088-2099). -/
def applyHandleTradePnlBranch (e : EventData) (et : String) (t : Trade) : Trade :=
  if containsSubstr et "handle_trade_pnl" then
    let t := match e.collateral_sent_to_trader with
             | some v => { t with pnlAmount := some v }
             | none => t
    let t := if e.available_collateral.isSome && ¬ (jsTruthyNum t.collateral) then
               { t with collateral := e.available_collateral }
             else t
    let t := if e.action == some "SendToTrader" then { t with type := "close" } else t
    t
  else t

/-- `handle_trade_borrowing` branch (lines 2102-2106). -/
def applyHandleTradeBorrowingBranch (e : EventData) (et : String) (t : Trade) : Trade :=
  if containsSubstr et "handle_trade_borrowing" then
    match e.long with
    | some b => { t with direction := some (if b then "long" else "short") }
    | none => t
  else t

/-- `process_closing_fees` branch (lines 2109-2122). -/
def applyProcessClosingFeesBranch (e : EventData) (et : String) (t : Trade) : Trade :=
  if containsSubstr et "process_closing_fees" then
    let t := { t with type := "close" }
    let closingFee := e.final_closing_fee.getD 0
    let triggerFee := e.final_trigger_fee.getD 0
    let t := { t with fees := some (closingFee + triggerFee) }
    let t := match e.collateral_left with
             | some cl => { t with collateral := some (cl + (closingFee + triggerFee)) }
             | none => t
    t
  else t

/-- `unregister_trade` branch (lines 2125-2146).  Note that it OVERWRITES
`profitPct` unconditionally when its collateral fields are present and the
derived original collateral is positive. -/
def applyUnregisterBranch (e : EventData) (et : String) (t : Trade) : Trade :=
  if containsSubstr et "unregister_trade" then
    let t := { t with type := "close" }
    let t := match e.trade_value_collateral with
             | some v => { t with pnlAmount := some v }
             | none => t
    let t := match e.trade_index with
             | some i => { t with tradeIndex := some i }
             | none => t
    let t :=
      if e.collateral_left_in_storage.isSome && e.trade_value_collateral.isSome then
        let collateralLeft := e.collateral_left_in_storage.getD 0
        let tradeValue := e.trade_value_collateral.getD 0
        let totalFees := (e.vault_closing_fee.getD 0) + (e.trigger_fee_collateral.getD 0) +
                         (e.gov_fee.getD 0)
        let originalCollateral := collateralLeft + totalFees
        if 0 < originalCollateral then
          { t with profitPct := some ((tradeValue - originalCollateral) / originalCollateral) }
        else t
      else t
    t
  else t

/-- `update_pair_oi` / `update_group_oi` branch (lines 2149-2154). -/
def applyUpdateOiBranch (e : EventData) (et : String) (t : Trade) : Trade :=
  if containsSubstr et "update_pair_oi" || containsSubstr et "update_group_oi" then
    if e.long.isSome && (e.openField == some "false") then
      match e.long with
      | some b => { t with direction := some (if b then "long" else "short") }
      | none => t
    else t
  else t

/-- One iteration of the per-event loop: the nine `if` blocks in source
order. -/
def applyEvent (t : Trade) (e : EventData) : Trade :=
  let et := eventTypeLower e
  let t := applyOpenBranch e et t
  let t := applyCloseOrderBranch e et t
  let t := applyUserCloseOrderBranch e et t
  let t := applyMarketCloseBranch e et t
  let t := applyHandleTradePnlBranch e et t
  let t := applyHandleTradeBorrowingBranch e et t
  let t := applyProcessClosingFeesBranch e et t
  let t := applyUnregisterBranch e et t
  let t := applyUpdateOiBranch e et t
  t

/-- The accumulator seeded per transaction (line 2009): type starts as
`"close"`. -/
def initialTrade (txHash : String) (timestamp : ℚ) : Trade :=
  { txHash := txHash, timestamp := timestamp, type := "close" }

/-- Reconstruction of one transaction's trade from its decoded events
(lines 2009-2163), including the final derived-estimate fallback, whose JS
guard `trade.pnlAmount && trade.collateral && trade.collateral > 0` requires
both fields truthy and the collateral positive. -/
def processTxLogs (txHash : String) (timestamp : ℚ) (events : List EventData) : Trade :=
  let trade := events.foldl applyEvent (initialTrade txHash timestamp)
  if trade.type = "close" ∧ trade.profitPct = none ∧ jsTruthyNum trade.pnlAmount = true ∧
     jsTruthyNum trade.collateral = true ∧ 0 < trade.collateral.getD 0 then
    { trade with
        profitPct := some ((trade.pnlAmount.getD 0 - trade.collateral.getD 0) /
                           trade.collateral.getD 0) }
  else trade

/-! ## Fee resolver (`src/server/routes.ts`, lines 239-333) -/

/-- One log entry of an RPC transaction receipt. -/
structure ReceiptLog where
  data : String
  topics : List String := []
  deriving Repr, DecidableEq

/-- An RPC transaction receipt (the fee extractor only reads `logs`). -/
structure TransactionReceipt where
  logs : List ReceiptLog
  deriving Repr, DecidableEq

/-- The four fee components extracted from one receipt. -/
structure ExtractedFees where
  openingFee : ℚ := 0
  closingFee : ℚ := 0
  openingTriggerFee : ℚ := 0
  closingTriggerFee : ℚ := 0
  deriving Repr, DecidableEq

/-- `Buffer.from(hex, 'hex')`: consume hex-digit pairs, stopping at the first
invalid pair; a trailing odd character is dropped. -/
def bufferFromHex : List Char → List ℕ
  | a :: b :: rest =>
      match hexDigitVal a, hexDigitVal b with
      | some ha, some hb => (16 * ha + hb) :: bufferFromHex rest
      | _, _ => []
  | _ => []

/-- A decimal-number parser for JS `Number(..)` on the payload's decimal
strings (`-?digits(.digits)?`; scientific notation does not occur in these
payloads and a non-numeric string, `NaN` in JS, is modelled as absent). -/
def parseDecimalQ (s : String) : Option ℚ :=
  let cs := s.toList
  let sgn : ℚ × List Char :=
    match cs with
    | c :: rest => if c = '-' then (-1, rest) else (1, cs)
    | [] => (1, cs)
  let intPart := sgn.2.takeWhile Char.isDigit
  let afterInt := sgn.2.drop intPart.length
  if intPart = [] then none
  else
    let intVal : ℚ := (intPart.foldl (fun a c => 10 * a + (c.toNat - 48)) 0 : ℕ)
    match afterInt with
    | [] => some (sgn.1 * intVal)
    | c :: rest =>
        if c = '.' then
          let digs := rest.takeWhile Char.isDigit
          if digs = [] ∨ rest.drop digs.length ≠ [] then none
          else
            let fracNum : ℚ := (digs.foldl (fun a c => 10 * a + (c.toNat - 48)) 0 : ℕ)
            some (sgn.1 * (intVal + fracNum / ((10 : ℚ) ^ digs.length)))
        else none

/-- JS `Number(v || 0)` on an optional parsed-JSON field: absent, `null`,
`""`, `false` and `0` all collapse to `0`; non-numeric content (JS `NaN`) is
modelled as `0` (no claim consumes it). -/
def jsNumberOrZero (v : Option JVal) : ℚ :=
  match v with
  | none => 0
  | some .jnull => 0
  | some (.jbool b) => if b then 1 else 0
  | some (.jnum lx) => (parseDecimalQ lx).getD 0
  | some (.jstr s) => if s = "" then 0 else (parseDecimalQ s).getD 0
  | some (.jarr _) => 0
  | some (.jobj _) => 0

/-- `extractFeesFromReceipt` (lines 239-267): per log, strip the `0x` prefix
and the 64-byte header, hex-decode, strip NUL characters, `JSON.parse`, and
read the two fee-bearing event kinds; a parse throw skips the log. -/
def extractFeesFromReceipt (receipt : TransactionReceipt) : ExtractedFees :=
  receipt.logs.foldl
    (fun acc log =>
      let dataHex := log.data.toList.drop 2
      if dataHex.length ≤ 128 then acc
      else
        let contentHex := dataHex.drop 128
        let decoded := (utf8Decode (bufferFromHex contentHex)).filter
          (fun c => ¬ (c = Char.ofNat 0))
        match jsonParse (String.mk decoded) with
        | none => acc
        | some j =>
            match j with
            | .jobj fields =>
                match jlookup fields "eventType" with
                | some (.jstr et) =>
                    if et = "wasm-sai/perp/process_opening_fees" then
                      { acc with
                          openingFee := jsNumberOrZero (jlookup fields "total_fee_charged") / 1000000
                          openingTriggerFee :=
                            jsNumberOrZero (jlookup fields "trigger_fee_component") / 1000000 }
                    else if et = "wasm-sai/perp/process_closing_fees" then
                      { acc with
                          closingFee := jsNumberOrZero (jlookup fields "final_closing_fee") / 1000000
                          closingTriggerFee :=
                            jsNumberOrZero (jlookup fields "final_trigger_fee") / 1000000 }
                    else acc
                | _ => acc
            | _ => acc)
    {}

/-- One entry of the `txHashes` argument of `fetchFeesFromRpc`. -/
structure TxRef where
  tradeId : ℕ
  evmTxHash : String
  isOpening : Bool
  deriving Repr, DecidableEq

/-- `fetchFeesFromRpc` (lines 277-333).  The RPC boundary is the parameter
`rpc`: `none` covers both a failed request (the `catch`) and a missing
receipt (`result.result` absent) — in either case the transaction contributes
nothing.  Batching (size 10) only schedules the I/O; the aggregation below is
the same sequential fold over `validTxs`. -/
def fetchFeesFromRpc (rpc : String → Option TransactionReceipt) (txHashes : List TxRef) :
    List (ℕ × TradeFees) :=
  let validTxs := txHashes.filter (fun tx => ¬ (tx.evmTxHash = ""))
  validTxs.foldl
    (fun feeMap tx =>
      match rpc tx.evmTxHash with
      | none => feeMap
      | some receipt =>
          let fees := extractFeesFromReceipt receipt
          let existing := (mapGet feeMap tx.tradeId).getD
            { openingFee := 0, closingFee := 0, triggerFee := 0 }
          let upd :=
            if tx.isOpening then
              { existing with
                  openingFee := fees.openingFee
                  triggerFee := existing.triggerFee + fees.openingTriggerFee }
            else
              { existing with
                  closingFee := fees.closingFee
                  triggerFee := existing.triggerFee + fees.closingTriggerFee }
          mapSet feeMap tx.tradeId upd)
    []

/-! ## Pair inference (`src/unnamed/part_002`, lines 685-703) -/

/-- A market snapshot used for pair inference. -/
structure MarketInfo where
  symbol : String
  price : ℚ
  deriving Repr, DecidableEq

/-- A JS number that may be `Infinity` (the initial `bestRatio` and the
division-by-zero case). -/
inductive JsNum where
  | fin (x : ℚ)
  | inf
  deriving Repr, DecidableEq

/-- The `<` comparison on `JsNum` (`Infinity` compares greater than every
finite value and `Infinity < Infinity` is false). -/
def JsNum.ltB : JsNum → JsNum → Bool
  | .fin a, .fin b => decide (a < b)
  | .fin _, .inf => true
  | .inf, _ => false

/-- `Math.max(entryPrice / market.price, market.price / entryPrice)` under JS
division: the call site guarantees `price > 0`, and a zero `entryPrice` makes
`price / entryPrice` equal `Infinity`. -/
def jsRatio (entryPrice : ℚ) (price : ℚ) : JsNum :=
  if entryPrice = 0 then .inf
  else .fin (max (entryPrice / price) (price / entryPrice))

/-- The fold state of `inferPairFromPrice`: `(bestMatch, bestRatio)`. -/
def inferStep (entryPrice : ℚ) (best : String × JsNum) (market : MarketInfo) :
    String × JsNum :=
  if market.price ≤ 0 then best
  else
    let ratio := jsRatio entryPrice market.price
    if ratio.ltB best.2 && ratio.ltB (.fin 5) then (market.symbol, ratio) else best

/-- `inferPairFromPrice` (lines 685-703). -/
def inferPairFromPrice (entryPrice : ℚ) (markets : List MarketInfo) : String :=
  if markets.isEmpty then "Unknown"
  else (markets.foldl (inferStep entryPrice) ("Unknown", JsNum.inf)).1

/-! ## Decimal digits of `Nat.toString` (helpers for identity uniqueness)

`convertTrade` and `convertTradeHistoryItem` store the trade identity as
`String(id)`; injectivity of `toString` on `ℕ` is needed to carry uniqueness
of the numeric ids over to the `tradeIndex` strings. -/

/-- Value of a decimal digit character. -/
def decDigitVal (c : Char) : ℕ := c.toNat - 48

/-- Value of a decimal digit string (most significant first). -/
def digitsVal (l : List Char) : ℕ :=
  l.foldl (fun a c => 10 * a + decDigitVal c) 0

/-! ## Amendment-side characterizations and concrete demonstration inputs -/

/-- Condition under which the `unregister_trade` branch overwrites
`profitPct`, read off lines 2134-2144: both collateral fields present and the
derived original collateral positive. -/
def unregProfitOverwrite (e : EventData) : Bool :=
  containsSubstr (eventTypeLower e) "unregister_trade" &&
    e.collateral_left_in_storage.isSome && e.trade_value_collateral.isSome &&
    decide (0 < e.collateral_left_in_storage.getD 0 +
      ((e.vault_closing_fee.getD 0) + (e.trigger_fee_collateral.getD 0) + (e.gov_fee.getD 0)))

/-- Condition under which an event can overwrite an already-set `profitPct`:
a `close_order` / `user_close` event carrying `profit_pct`, or an
`unregister_trade` event satisfying `unregProfitOverwrite`.  (The
`market_close` branch and the final fallback only ever FILL an unset
`profitPct`.) -/
def profitPctOverwrite (e : EventData) : Bool :=
  ((containsSubstr (eventTypeLower e) "close_order" ||
    containsSubstr (eventTypeLower e) "user_close") && e.profit_pct.isSome) ||
  unregProfitOverwrite e

/-- Spec-side qualification for pair inference: positive market price and
price ratio strictly below the 5x tolerance. -/
def qualifies (entryPrice : ℚ) (m : MarketInfo) : Bool :=
  decide (0 < m.price) && (jsRatio entryPrice m.price).ltB (.fin 5)

/-- A point-in-time state snapshot for a demonstration trade: +50 % P&L
before fees, P&L after fees 45 (6-decimals fixed point). -/
def demoState : PerpState :=
  { pnlCollateral := 50000000
    pnlPct := 1/2
    pnlCollateralAfterFees := 45000000
    positionValue := 150000000
    liquidationPrice := 50
    borrowingFeeCollateral := 2000000
    borrowingFeePct := 1/50
    closingFeeCollateral := 1000000
    closingFeePct := 1/100
    remainingCollateralAfterFees := 145000000 }

/-- A CLOSED point-in-time trade (id 7) that still carries a (stale) `state`
object. -/
def demoClosedTrade : PerpTrade :=
  { id := 7
    trader := "nibi1demo"
    isOpen := false
    isLong := true
    tradeType := "TRADE"
    leverage := 5
    collateralAmount := 100000000
    openCollateralAmount := 100000000
    openPrice := 100
    closePrice := some 110
    baseTokenSymbol := some "BTC"
    openBlock := some { block := 1, block_ts := 1000 }
    closeBlock := some { block := 2, block_ts := 2000 }
    state := some demoState }

/-- The change-log's realized P&L for trade 7: −20 %, −20 collateral — in
conflict with the stale point-in-time state of `demoClosedTrade`. -/
def demoPnlMap : List (ℕ × PnlEntry) :=
  [(7, { pnlPct := -(1/5), pnlAmount := -20 })]

/-- A change-log close item for a trade (id 9) absent from the point-in-time
list, with realized P&L present. -/
def demoHistoryItem : TradeHistoryItem :=
  { id := 42
    tradeChangeType := "position_closed_user"
    evmTxHash := some "0xabc"
    block := { block := 3, block_ts := 3000 }
    trade := { id := 9, isLong := false, leverage := 3, openPrice := 200,
               closePrice := some 190, baseTokenSymbol := some "ETH" }
    realizedPnlCollateral := some 15000000
    realizedPnlPct := some (3/20) }

/-- An OPEN point-in-time trade used to exhibit the duplicate-identity
behaviour when the primary list itself repeats an id. -/
def dupPerpTrade : PerpTrade :=
  { id := 1
    trader := "nibi1dup"
    isOpen := true
    isLong := true
    tradeType := "TRADE"
    leverage := 2
    collateralAmount := 5000000
    openCollateralAmount := 5000000
    openPrice := 10 }

/-- A `register_trade` (open) event, as in the spec's log-scan scenario. -/
def openEvent : EventData :=
  { eventType := some "wasm-sai/perp/register_trade"
    open_price := some 50000
    long := some true
    leverage := some 5
    collateral := some 100000000 }

/-- A `user_close_order` event reporting `profit_pct` 0.1. -/
def ucoEvent : EventData :=
  { eventType := some "wasm-sai/perp/user_close_order"
    close_price := some 55000
    profit_pct := some (1/10) }

/-- An `unregister_trade` event whose collateral fields yield the derived
estimate `(50 − 100) / 100 = −0.5`. -/
def unregEvent : EventData :=
  { eventType := some "wasm-sai/perp/unregister_trade"
    trade_value_collateral := some 50
    collateral_left_in_storage := some 100 }

/-- Two demonstration markets for pair inference. -/
def demoMarkets : List MarketInfo :=
  [{ symbol := "BTC", price := 100 }, { symbol := "ETH", price := 10 }]

/-- The trade record that `convertTradeHistoryItem` synthesizes from
`demoHistoryItem`. -/
def demoHistoryOutput : Trade :=
  { txHash := "history-42"
    timestamp := 3000
    type := "close"
    pair := some "ETH"
    direction := some "short"
    leverage := some 3
    openPrice := some 200
    closePrice := some 190
    profitPct := some (3/20)
    pnlAmount := some 15
    tradeIndex := some "9" }

/-- Hex encoding of an ABI string payload whose decoded text is the JSON
object with `eventType` `wasm-sai/perp/user_close_order` and `profit_pct`
`"0.1"` (offset word, length word 0x41 = 65, then the UTF-8 bytes). -/
def demoHexPayload : String :=
  "0x0000000000000000000000000000000000000000000000000000000000000020" ++
  "0000000000000000000000000000000000000000000000000000000000000041" ++
  "7b226576656e7454797065223a227761736d2d7361692f706572702f75736572" ++
  "5f636c6f73655f6f72646572222c2270726f6669745f706374223a22302e3122" ++
  "7d"

/-! # Theorems -/

/-- C3: for a trade identity present in both query results, the code takes the
CLOSED trade's `profitPct`/`pnlAmount` from the stale point-in-time `state`
object whenever one is attached (here `0.5` / `45`), not from the realized
P&L map built from the change-log (here `−0.2`), although the `else`-comment
of the source says closed trades should read the trade-history map — the
`state` branch, commented as being "for open trades with unrealized P&L",
is inside `if (!isOpen)`.  Evaluates `convertTrade` at the conflicting
input. -/
theorem closed_trade_state_overrides_history :
    (convertTrade 0 demoClosedTrade demoPnlMap []).profitPct = some (1/2) ∧
    (convertTrade 0 demoClosedTrade demoPnlMap []).pnlAmount = some 45 ∧
    mapGet demoPnlMap 7 = some { pnlPct := -(1/5), pnlAmount := -20 } ∧
    (decide ((1/2 : ℚ) = -(1/5))) = false := by
  refine ⟨?_, ?_, ?_, ?_⟩ <;> with_unfolding_all rfl

/-- C4 counterexample: a `user_close_order` event reporting `profit_pct = 0.1`
followed by an `unregister_trade` event makes the final `profitPct` the
derived estimate `−0.5`, not `0.1` — the `user_close_order` value does NOT
take precedence regardless of order. -/
theorem userCloseOrder_overwritten_counterexample :
    ucoEvent.profit_pct = some (1/10) ∧
    (processTxLogs "0xc4" 0 [ucoEvent, unregEvent]).profitPct = some (-(1/2)) ∧
    (decide ((-(1/2) : ℚ) = 1/10)) = false := by
  refine ⟨?_, ?_, ?_⟩ <;> with_unfolding_all rfl

/-- C6 counterexample: when the point-in-time trades list itself repeats an
id, the first loop pushes BOTH rows (it only guards the change-log loop), so
the output carries a duplicate identity. -/
theorem duplicate_primary_ids_counterexample :
    ((reconcileTrades 0 [dupPerpTrade, dupPerpTrade] [] []).map Trade.tradeIndex) =
      [some "1", some "1"] ∧
    ¬ (([some "1", some "1"] : List (Option String)).Nodup) := by
  constructor
  · with_unfolding_all rfl
  · decide

/-- C7 counterexample: the positions endpoint performs no address-format
validation — a malformed address with a valid network proceeds to the
upstream GraphQL call — and its network gate is the prototype-chain lookup
`!NETWORKS[network]`, so a network value naming an inherited
`Object.prototype` member (here `"toString"`, which is neither `mainnet` nor
`testnet`) also passes the gate and is never answered with a 400. -/
theorem positions_endpoint_validation_counterexample :
    isValidEvmAddress "0xNOTANADDRESS!!higxvqoesjwpfmdljuuzzzz" = false ∧
    positionsEndpointGate (some "0xNOTANADDRESS!!higxvqoesjwpfmdljuuzzzz") (some "mainnet") =
      .upstream ∧
    isValidEvmAddress demoValidAddress = true ∧
    (decide (("toString" : String) = "mainnet") ||
      decide (("toString" : String) = "testnet")) = false ∧
    positionsEndpointGate (some demoValidAddress) (some "toString") = .upstream := by
  refine ⟨?_, ?_, ?_, ?_, ?_⟩ <;> with_unfolding_all rfl

/-- C8 counterexample: with every receipt lookup failing, the fee map has no
entry for trade 7 and the per-component fees stay undefined — but because the
trade carries a `state` object, `totalFees` is set to the borrowing fee alone
(`some 2`), not left undefined as the claim requires. -/
theorem totalFees_borrowing_only_counterexample :
    mapGet (fetchFeesFromRpc (fun _ => none)
      [{ tradeId := 7, evmTxHash := "0xfee7", isOpening := true }]) 7 = none ∧
    (convertTrade 0 demoClosedTrade demoPnlMap (fetchFeesFromRpc (fun _ => none)
      [{ tradeId := 7, evmTxHash := "0xfee7", isOpening := true }])).openingFee = none ∧
    (convertTrade 0 demoClosedTrade demoPnlMap (fetchFeesFromRpc (fun _ => none)
      [{ tradeId := 7, evmTxHash := "0xfee7", isOpening := true }])).totalFees = some 2 := by
  refine ⟨?_, ?_, ?_⟩ <;> with_unfolding_all rfl

theorem filter_helper (t : Trade) :
    (isWin t && isCloseWithPnl t) =
      (decide (t.type = "close") &&
        (match t.profitPct with
         | some v => decide (0 < v)
         | none => false)) := by
  cases hp : t.profitPct with
  | none => simp [isWin, isCloseWithPnl, hp]
  | some v => simp [isWin, isCloseWithPnl, hp, Bool.and_comm]

/-- C2: the win-rate denominator counts exactly the trades of type `close`
with a defined `profitPct`; `winRate` is the number of those with positive
`profitPct` divided by that count, is `0` (a rational, never NaN) when the
count is zero, and always lies in `[0, 1]`. -/
theorem winRate_spec (trades : List Trade) :
    (winRate trades =
       if trades.countP isCloseWithPnl = 0 then 0
       else (trades.countP
               (fun t => decide (t.type = "close") &&
                  (match t.profitPct with
                   | some v => decide (0 < v)
                   | none => false)) : ℚ) /
            (trades.countP isCloseWithPnl : ℚ)) ∧
    0 ≤ winRate trades ∧ winRate trades ≤ 1 ∧
    (trades.countP isCloseWithPnl = 0 → winRate trades = 0) := by
  have hwr : winRate trades =
      if 0 < (trades.filter isCloseWithPnl).length then
        (((trades.filter isCloseWithPnl).filter isWin).length : ℚ) /
          ((trades.filter isCloseWithPnl).length : ℚ)
      else 0 := rfl
  have hd : trades.countP isCloseWithPnl = (trades.filter isCloseWithPnl).length :=
    List.countP_eq_length_filter _ _
  have hw : trades.countP
      (fun t => decide (t.type = "close") &&
        (match t.profitPct with
         | some v => decide (0 < v)
         | none => false)) = ((trades.filter isCloseWithPnl).filter isWin).length := by
    rw [List.filter_filter, List.countP_eq_length_filter]
    congr 1
    apply List.filter_congr
    intro t _
    exact (filter_helper t).symm
  have hle : ((trades.filter isCloseWithPnl).filter isWin).length ≤
      (trades.filter isCloseWithPnl).length := List.length_filter_le _ _
  refine ⟨?_, ?_, ?_, ?_⟩
  · rw [hwr, hd, hw]
    by_cases h0 : (trades.filter isCloseWithPnl).length = 0
    · simp [h0]
    · simp [h0, Nat.pos_of_ne_zero h0]
  · rw [hwr]
    split
    · positivity
    · exact le_refl 0
  · rw [hwr]
    split
    · apply div_le_one_of_le₀
      · exact_mod_cast hle
      · positivity
    · exact zero_le_one
  · intro h0
    rw [hwr]
    rw [hd] at h0
    simp [h0]

/-- C2 witness: the zero-denominator convention at the empty trade list. -/
theorem winRate_spec_witness : winRate [] = 0 :=
  (winRate_spec []).2.2.2 (by rfl)

theorem historyItem_fields (item : TradeHistoryItem) (t : Trade)
    (h : convertTradeHistoryItem item = some t) :
    t.collateral = none ∧ t.amountReceived = none ∧
    t.tradeIndex = some (toString item.trade.id) := by
  unfold convertTradeHistoryItem at h
  split at h
  · exact Option.noConfusion h
  · rw [Option.some.injEq] at h
    subst h
    cases hrp : item.realizedPnlPct <;> cases hrc : item.realizedPnlCollateral <;>
      simp [hrp, hrc]

/-- C10: a trade synthesized by `convertTradeHistoryItem` always has
undefined `collateral`, and therefore the `amountReceived` guard can never
fire: `amountReceived` is always undefined as well, even when realized P&L is
present. -/
theorem historyItem_no_collateral (item : TradeHistoryItem) (t : Trade)
    (h : convertTradeHistoryItem item = some t) :
    t.collateral = none ∧ t.amountReceived = none :=
  ⟨(historyItem_fields item t h).1, (historyItem_fields item t h).2.1⟩

/-- C10 witness: a concrete close change-log item with realized P&L present
still yields undefined `collateral` and `amountReceived`. -/
theorem historyItem_no_collateral_witness :
    ∃ t, convertTradeHistoryItem demoHistoryItem = some t ∧
         t.collateral = none ∧ t.amountReceived = none := by
  have hEq : convertTradeHistoryItem demoHistoryItem = some demoHistoryOutput := by
    with_unfolding_all rfl
  exact ⟨_, hEq, historyItem_no_collateral demoHistoryItem _ hEq⟩
theorem convertTrade_amount (now : ℚ) (pt : PerpTrade) (pnlMap : List (ℕ × PnlEntry))
    (feeMap : List (ℕ × TradeFees)) :
    (∀ c p, (convertTrade now pt pnlMap feeMap).collateral = some c →
        (convertTrade now pt pnlMap feeMap).pnlAmount = some p →
        (convertTrade now pt pnlMap feeMap).amountReceived = some (c + p)) ∧
    ((convertTrade now pt pnlMap feeMap).amountReceived ≠ none →
        (convertTrade now pt pnlMap feeMap).collateral ≠ none ∧
        (convertTrade now pt pnlMap feeMap).pnlAmount ≠ none) := by
  unfold convertTrade
  cases hOpen : pt.isOpen <;> cases hFee : mapGet feeMap pt.id <;>
    cases hSt : pt.state <;> cases hPnl : mapGet pnlMap pt.id <;>
      simp [hOpen, hFee, hSt, hPnl]

theorem convertTrade_tradeIndex (now : ℚ) (pt : PerpTrade) (pnlMap : List (ℕ × PnlEntry))
    (feeMap : List (ℕ × TradeFees)) :
    (convertTrade now pt pnlMap feeMap).tradeIndex = some (toString pt.id) := by
  unfold convertTrade
  cases hOpen : pt.isOpen <;> cases hFee : mapGet feeMap pt.id <;>
    cases hSt : pt.state <;> cases hPnl : mapGet pnlMap pt.id <;>
      simp [hOpen, hFee, hSt, hPnl]

theorem convertTrade_fees_none (now : ℚ) (pt : PerpTrade) (pnlMap : List (ℕ × PnlEntry))
    (feeMap : List (ℕ × TradeFees)) (hf : mapGet feeMap pt.id = none) :
    (convertTrade now pt pnlMap feeMap).openingFee = none ∧
    (convertTrade now pt pnlMap feeMap).closingFee = none ∧
    (convertTrade now pt pnlMap feeMap).triggerFee = none ∧
    (pt.state = none → (convertTrade now pt pnlMap feeMap).totalFees = none) ∧
    (∀ st, pt.state = some st →
       (convertTrade now pt pnlMap feeMap).totalFees =
         some (st.borrowingFeeCollateral / 1000000)) := by
  unfold convertTrade
  cases hOpen : pt.isOpen <;> cases hSt : pt.state <;> cases hPnl : mapGet pnlMap pt.id <;>
    simp [hOpen, hf, hSt, hPnl]
theorem seedFromTrades_mem (now : ℚ) (pnlMap : List (ℕ × PnlEntry))
    (feeMap : List (ℕ × TradeFees)) :
    ∀ (pts : List PerpTrade) (acc : List Trade × List ℕ) (t : Trade),
      t ∈ (pts.foldl (fun acc pt =>
            (acc.1 ++ [convertTrade now pt pnlMap feeMap], acc.2 ++ [pt.id])) acc).1 →
      t ∈ acc.1 ∨ ∃ pt ∈ pts, t = convertTrade now pt pnlMap feeMap := by
  intro pts
  induction pts with
  | nil => intro acc t h; exact Or.inl h
  | cons pt rest ih =>
      intro acc t h
      rw [List.foldl_cons] at h
      rcases ih _ t h with h1 | ⟨pt2, hmem, heq⟩
      · rcases List.mem_append.mp h1 with h2 | h2
        · exact Or.inl h2
        · exact Or.inr ⟨pt, List.mem_cons_self pt rest, List.eq_of_mem_singleton h2⟩
      · exact Or.inr ⟨pt2, List.mem_cons_of_mem pt hmem, heq⟩

theorem addHistoryTrades_mem (history : List TradeHistoryItem) :
    ∀ (acc : List Trade × List ℕ) (t : Trade),
      t ∈ (addHistoryTrades history acc).1 →
      t ∈ acc.1 ∨ ∃ item ∈ history, convertTradeHistoryItem item = some t := by
  induction history with
  | nil => intro acc t h; exact Or.inl h
  | cons item rest ih =>
      intro acc t h
      unfold addHistoryTrades at h ih
      rw [List.foldl_cons] at h
      rcases ih _ t h with h1 | ⟨it2, hm, he⟩
      · by_cases hc : acc.2.contains item.trade.id
        · rw [if_pos hc] at h1
          exact Or.inl h1
        · rw [if_neg hc] at h1
          cases hcv : convertTradeHistoryItem item with
          | none => rw [hcv] at h1; exact Or.inl h1
          | some t2 =>
              rw [hcv] at h1
              rcases List.mem_append.mp h1 with h2 | h2
              · exact Or.inl h2
              · have ht : t = t2 := List.eq_of_mem_singleton h2
                subst ht
                exact Or.inr ⟨item, List.mem_cons_self item rest, hcv⟩
      · exact Or.inr ⟨it2, List.mem_cons_of_mem item hm, he⟩
/-- C1: every trade in the reconciled output list satisfies the
amount-received invariant — when both `collateral` and `pnlAmount` are
defined, `amountReceived` is exactly their sum (exact rational arithmetic, so
in particular within any floating tolerance), and `amountReceived` is defined
only when both operands are. -/
theorem amountReceived_invariant (now : ℚ) (pts : List PerpTrade)
    (history : List TradeHistoryItem) (feeMap : List (ℕ × TradeFees)) (t : Trade)
    (ht : t ∈ reconcileTrades now pts history feeMap) :
    (∀ c p, t.collateral = some c → t.pnlAmount = some p →
        t.amountReceived = some (c + p)) ∧
    (t.amountReceived ≠ none → t.collateral ≠ none ∧ t.pnlAmount ≠ none) := by
  unfold reconcileTrades at ht
  rw [List.mem_mergeSort] at ht
  rcases addHistoryTrades_mem history _ t ht with h1 | ⟨item, _, he⟩
  · rcases seedFromTrades_mem now (buildPnlMap history) feeMap pts ([], []) t h1 with
      h0 | ⟨pt, _, heq⟩
    · exact absurd h0 (List.not_mem_nil t)
    · subst heq
      exact convertTrade_amount now pt (buildPnlMap history) feeMap
  · have hf := historyItem_fields item t he
    constructor
    · intro c p hc
      rw [hf.1] at hc
      exact Option.noConfusion hc
    · intro hr
      rw [hf.2.1] at hr
      exact absurd rfl hr

/-- C1 witness: one reconciled closed trade with `collateral = 100`,
`pnlAmount = 45`, `amountReceived = 145`. -/
theorem amountReceived_invariant_witness :
    ∃ t ∈ reconcileTrades 0 [demoClosedTrade] [] [],
      t.collateral = some 100 ∧ t.pnlAmount = some 45 ∧ t.amountReceived = some 145 := by
  have hmem : convertTrade 0 demoClosedTrade [] [] ∈ reconcileTrades 0 [demoClosedTrade] [] [] := by
    have hEq : reconcileTrades 0 [demoClosedTrade] [] [] =
        [convertTrade 0 demoClosedTrade [] []] := by
      with_unfolding_all rfl
    rw [hEq]
    exact List.mem_singleton.mpr rfl
  have hc : (convertTrade 0 demoClosedTrade [] []).collateral = some 100 := by
    with_unfolding_all rfl
  have hp : (convertTrade 0 demoClosedTrade [] []).pnlAmount = some 45 := by
    with_unfolding_all rfl
  refine ⟨convertTrade 0 demoClosedTrade [] [], hmem, hc, hp, ?_⟩
  rw [(amountReceived_invariant 0 [demoClosedTrade] [] []
        (convertTrade 0 demoClosedTrade [] []) hmem).1 100 45 hc hp]
  with_unfolding_all rfl
theorem decDigitVal_digitChar : ∀ d : ℕ, d < 10 → decDigitVal (Nat.digitChar d) = d := by
  decide

theorem toDigitsCore_shift (b : ℕ) :
    ∀ (fuel n : ℕ) (ds : List Char),
      Nat.toDigitsCore b fuel n ds = Nat.toDigitsCore b fuel n [] ++ ds := by
  intro fuel
  induction fuel with
  | zero => intro n ds; rfl
  | succ f ih =>
      intro n ds
      simp only [Nat.toDigitsCore]
      by_cases h : n / b = 0
      · simp [h]
      · simp only [if_neg h]
        rw [ih (n / b) (Nat.digitChar (n % b) :: ds), ih (n / b) [Nat.digitChar (n % b)]]
        simp

theorem digitsVal_append (l : List Char) (c : Char) :
    digitsVal (l ++ [c]) = 10 * digitsVal l + decDigitVal c := by
  simp [digitsVal, List.foldl_append]

theorem digitsVal_toDigitsCore :
    ∀ (fuel n : ℕ), n < fuel → digitsVal (Nat.toDigitsCore 10 fuel n []) = n := by
  intro fuel
  induction fuel with
  | zero => intro n hn; omega
  | succ f ih =>
      intro n hn
      simp only [Nat.toDigitsCore]
      by_cases h : n / 10 = 0
      · have hlt : n < 10 := by omega
        simp [h, digitsVal, decDigitVal_digitChar (n % 10) (by omega)]
        omega
      · simp only [if_neg h]
        rw [toDigitsCore_shift, digitsVal_append,
            ih (n / 10) (by omega), decDigitVal_digitChar (n % 10) (by omega)]
        omega

theorem natToString_inj (m n : ℕ) (h : toString m = toString n) : m = n := by
  have h2 : (Nat.toDigits 10 m).asString = (Nat.toDigits 10 n).asString := h
  have h3 : Nat.toDigits 10 m = Nat.toDigits 10 n := congrArg String.data h2
  have h4 := congrArg digitsVal h3
  unfold Nat.toDigits at h4
  rwa [digitsVal_toDigitsCore (m + 1) m (by omega),
       digitsVal_toDigitsCore (n + 1) n (by omega)] at h4
theorem seedFromTrades_eq (now : ℚ) (pnlMap : List (ℕ × PnlEntry))
    (feeMap : List (ℕ × TradeFees)) (pts : List PerpTrade) :
    ∀ acc : List Trade × List ℕ,
      pts.foldl (fun acc pt =>
        (acc.1 ++ [convertTrade now pt pnlMap feeMap], acc.2 ++ [pt.id])) acc =
      (acc.1 ++ pts.map (fun pt => convertTrade now pt pnlMap feeMap),
       acc.2 ++ pts.map PerpTrade.id) := by
  induction pts with
  | nil => intro acc; simp
  | cons pt rest ih =>
      intro acc
      rw [List.foldl_cons, ih]
      simp

theorem natKey_inj : Function.Injective (fun i : ℕ => some (toString i)) := by
  intro a b h
  simp only [Option.some.injEq] at h
  exact natToString_inj a b h

theorem addHistoryTrades_nodup (history : List TradeHistoryItem) :
    ∀ acc : List Trade × List ℕ,
      (acc.1.map Trade.tradeIndex).Nodup →
      (∀ t ∈ acc.1, ∃ i ∈ acc.2, t.tradeIndex = some (toString i)) →
      ((addHistoryTrades history acc).1.map Trade.tradeIndex).Nodup := by
  induction history with
  | nil => intro acc h1 _; exact h1
  | cons item rest ih =>
      intro acc h1 h2
      unfold addHistoryTrades at ih ⊢
      rw [List.foldl_cons]
      by_cases hc : acc.2.contains item.trade.id
      · rw [if_pos hc]
        exact ih acc h1 h2
      · rw [if_neg hc]
        cases hcv : convertTradeHistoryItem item with
        | none => exact ih acc h1 h2
        | some t =>
            have hidx : t.tradeIndex = some (toString item.trade.id) :=
              (historyItem_fields item t hcv).2.2
            apply ih (acc.1 ++ [t], acc.2 ++ [item.trade.id])
            · rw [List.map_append, List.nodup_append]
              refine ⟨h1, by simp, ?_⟩
              intro x hx hx2
              simp only [List.map_cons, List.map_nil, List.mem_singleton] at hx2
              subst hx2
              rcases List.mem_map.mp hx with ⟨t2, ht2mem, ht2idx⟩
              rcases h2 t2 ht2mem with ⟨i, hi, hteq⟩
              rw [hteq, hidx] at ht2idx
              have : i = item.trade.id :=
                natToString_inj i item.trade.id (by injection ht2idx)
              subst this
              exact hc (List.elem_iff.mpr hi)
            · intro t2 ht2
              rcases List.mem_append.mp ht2 with hm | hm
              · rcases h2 t2 hm with ⟨i, hi, hteq⟩
                exact ⟨i, List.mem_append_left _ hi, hteq⟩
              · have : t2 = t := List.eq_of_mem_singleton hm
                subst this
                exact ⟨item.trade.id, List.mem_append_right _ (List.mem_singleton.mpr rfl), hidx⟩
/-- C6 (amended): provided the point-in-time trades list has pairwise
distinct ids, the reconciled output has no duplicate trade identity — once an
identity is seeded from the primary query, the change-log loop never adds a
second record for it, and at most one record is synthesized per change-log
identity.  (The unamended claim fails when the primary list itself repeats an
id; see the counterexample.) -/
theorem no_duplicate_identity_amended (now : ℚ) (pts : List PerpTrade)
    (history : List TradeHistoryItem) (feeMap : List (ℕ × TradeFees))
    (h : (pts.map PerpTrade.id).Nodup) :
    ((reconcileTrades now pts history feeMap).map Trade.tradeIndex).Nodup := by
  unfold reconcileTrades
  have hperm :=
    (List.mergeSort_perm (addHistoryTrades history
      (seedFromTrades now pts (buildPnlMap history) feeMap)).1 tsDesc).map Trade.tradeIndex
  apply hperm.symm.nodup
  have hseed : seedFromTrades now pts (buildPnlMap history) feeMap =
      (pts.map (fun pt => convertTrade now pt (buildPnlMap history) feeMap),
       pts.map PerpTrade.id) := by
    unfold seedFromTrades
    rw [seedFromTrades_eq]
    simp
  apply addHistoryTrades_nodup
  · rw [hseed]
    simp only [List.map_map]
    have : (Trade.tradeIndex ∘ fun pt => convertTrade now pt (buildPnlMap history) feeMap) =
        (fun i : ℕ => some (toString i)) ∘ PerpTrade.id := by
      funext pt
      exact convertTrade_tradeIndex now pt (buildPnlMap history) feeMap
    rw [this, ← List.map_map]
    exact h.map natKey_inj
  · rw [hseed]
    intro t ht
    rcases List.mem_map.mp ht with ⟨pt, hpt, heq⟩
    subst heq
    exact ⟨pt.id, List.mem_map_of_mem PerpTrade.id hpt,
           convertTrade_tradeIndex now pt (buildPnlMap history) feeMap⟩

/-- C6 witness: a concrete reconciliation (one primary trade, one change-log
item for a different id) has pairwise distinct trade identities. -/
theorem no_duplicate_identity_amended_witness :
    ((reconcileTrades 0 [demoClosedTrade] [demoHistoryItem] []).map Trade.tradeIndex).Nodup :=
  no_duplicate_identity_amended 0 [demoClosedTrade] [demoHistoryItem] [] (by simp)
theorem lookup_append_single_ne {α : Type} (k i : ℕ) (v : α) (hki : k ≠ i) :
    ∀ m : List (ℕ × α), List.lookup i (m ++ [(k, v)]) = List.lookup i m := by
  intro m
  induction m with
  | nil =>
      simp [List.lookup, show (i == k) = false by simp [Ne.symm hki]]
  | cons p rest ih =>
      cases hpi : (i == p.1) <;> simp [List.lookup, hpi, ih]

theorem lookup_map_replace_ne {α : Type} (k i : ℕ) (v : α) (hki : k ≠ i) :
    ∀ m : List (ℕ × α),
      List.lookup i (m.map (fun p => if p.1 = k then (k, v) else p)) = List.lookup i m := by
  intro m
  induction m with
  | nil => rfl
  | cons p rest ih =>
      by_cases hp : p.1 = k
      · rw [List.map_cons, if_pos hp]
        have h1 : (i == k) = false := by simp [Ne.symm hki]
        have h2 : (i == p.1) = false := by rw [hp]; simp [Ne.symm hki]
        simp [List.lookup, h1, h2, ih]
      · rw [List.map_cons, if_neg hp]
        cases hpi : (i == p.1) <;> simp [List.lookup, hpi, ih]

theorem mapGet_mapSet_ne {α : Type} (m : List (ℕ × α)) (k i : ℕ) (v : α) (hki : k ≠ i) :
    mapGet (mapSet m k v) i = mapGet m i := by
  unfold mapGet mapSet
  split
  · exact lookup_map_replace_ne k i v hki m
  · exact lookup_append_single_ne k i v hki m
theorem fetchFees_no_entry (rpc : String → Option TransactionReceipt)
    (txs : List TxRef) (i : ℕ)
    (h : ∀ tx ∈ txs, tx.tradeId = i → rpc tx.evmTxHash = none) :
    mapGet (fetchFeesFromRpc rpc txs) i = none := by
  unfold fetchFeesFromRpc
  have hv : ∀ tx ∈ txs.filter (fun tx => ¬ (tx.evmTxHash = "")), tx.tradeId = i →
      rpc tx.evmTxHash = none := by
    intro tx hm
    exact h tx (List.mem_of_mem_filter hm)
  generalize txs.filter (fun tx => ¬ (tx.evmTxHash = "")) = l at hv
  suffices hgen : ∀ (l2 : List TxRef), (∀ tx ∈ l2, tx.tradeId = i → rpc tx.evmTxHash = none) →
      ∀ m : List (ℕ × TradeFees), mapGet m i = none →
      mapGet (l2.foldl (fun feeMap tx =>
        match rpc tx.evmTxHash with
        | none => feeMap
        | some receipt =>
            let fees := extractFeesFromReceipt receipt
            let existing := (mapGet feeMap tx.tradeId).getD
              { openingFee := 0, closingFee := 0, triggerFee := 0 }
            let upd :=
              if tx.isOpening then
                { existing with
                    openingFee := fees.openingFee
                    triggerFee := existing.triggerFee + fees.openingTriggerFee }
              else
                { existing with
                    closingFee := fees.closingFee
                    triggerFee := existing.triggerFee + fees.closingTriggerFee }
            mapSet feeMap tx.tradeId upd) m) i = none by
    exact hgen l hv [] rfl
  intro l2
  induction l2 with
  | nil => intro _ m hm; exact hm
  | cons tx rest ih =>
      intro hl m hm
      rw [List.foldl_cons]
      cases hr : rpc tx.evmTxHash with
      | none =>
          simp only [hr]
          exact ih (fun t ht => hl t (List.mem_cons_of_mem tx ht)) m hm
      | some receipt =>
          simp only [hr]
          apply ih (fun t ht => hl t (List.mem_cons_of_mem tx ht))
          have hne : tx.tradeId ≠ i := by
            intro he
            rw [hl tx (List.mem_cons_self tx rest) he] at hr
            exact Option.noConfusion hr
          rw [mapGet_mapSet_ne _ _ _ _ hne]
          exact hm
/-- C8 (amended): when every receipt lookup for a trade's transactions
returns no result, the fee resolver produces no fee-map entry for that trade
and the reconciled trade's `openingFee`, `closingFee` and `triggerFee` remain
undefined (not `0`); `totalFees` remains undefined when the trade carries no
point-in-time `state`, but when a `state` is attached `totalFees` is set to
the borrowing-fee component alone (the unamended "totalFees likewise remains
undefined" fails there; see the counterexample). -/
theorem missing_receipt_fees_amended (now : ℚ) (rpc : String → Option TransactionReceipt)
    (txs : List TxRef) (pt : PerpTrade) (pnlMap : List (ℕ × PnlEntry))
    (h : ∀ tx ∈ txs, tx.tradeId = pt.id → rpc tx.evmTxHash = none) :
    mapGet (fetchFeesFromRpc rpc txs) pt.id = none ∧
    (convertTrade now pt pnlMap (fetchFeesFromRpc rpc txs)).openingFee = none ∧
    (convertTrade now pt pnlMap (fetchFeesFromRpc rpc txs)).closingFee = none ∧
    (convertTrade now pt pnlMap (fetchFeesFromRpc rpc txs)).triggerFee = none ∧
    (pt.state = none → (convertTrade now pt pnlMap (fetchFeesFromRpc rpc txs)).totalFees = none) ∧
    (∀ st, pt.state = some st →
       (convertTrade now pt pnlMap (fetchFeesFromRpc rpc txs)).totalFees =
         some (st.borrowingFeeCollateral / 1000000)) := by
  have hmap : mapGet (fetchFeesFromRpc rpc txs) pt.id = none := fetchFees_no_entry rpc txs pt.id h
  have hfees := convertTrade_fees_none now pt pnlMap (fetchFeesFromRpc rpc txs) hmap
  exact ⟨hmap, hfees.1, hfees.2.1, hfees.2.2.1, hfees.2.2.2.1, hfees.2.2.2.2⟩

/-- C8 witness: all receipt lookups fail for trade 7; its per-component fees
stay undefined. -/
theorem missing_receipt_fees_amended_witness :
    mapGet (fetchFeesFromRpc (fun _ => none)
      [{ tradeId := 7, evmTxHash := "0xfee7", isOpening := true }]) demoClosedTrade.id = none ∧
    (convertTrade 0 demoClosedTrade demoPnlMap (fetchFeesFromRpc (fun _ => none)
      [{ tradeId := 7, evmTxHash := "0xfee7", isOpening := true }])).openingFee = none :=
  ⟨(missing_receipt_fees_amended 0 (fun _ => none)
      [{ tradeId := 7, evmTxHash := "0xfee7", isOpening := true }] demoClosedTrade demoPnlMap
      (fun _ _ _ => rfl)).1,
   (missing_receipt_fees_amended 0 (fun _ => none)
      [{ tradeId := 7, evmTxHash := "0xfee7", isOpening := true }] demoClosedTrade demoPnlMap
      (fun _ _ _ => rfl)).2.1⟩
/-- C7 (amended): the trades endpoint returns a 400 client error without any
upstream call whenever the address is missing or fails the EVM-address format
gate, or the effective network is neither `mainnet` nor `testnet`; the
positions endpoint returns 400 for a missing address, and 400 for a network
only when the prototype-chain lookup `NETWORKS[network]` is falsy — a network
naming an inherited `Object.prototype` member (e.g. `toString`) passes the
gate and proceeds (the handler then 500s on the failed fetch, never 400) —
and it performs NO address-format validation (see the counterexample). -/
theorem endpoint_validation_amended (address : Option String) (network : Option String) :
    ((∀ a, address = some a → isValidEvmAddress a = false) →
       ∃ msg, tradesEndpointGate address network = .badRequest msg) ∧
    ((jsStrOr network "mainnet" ≠ "mainnet" ∧ jsStrOr network "mainnet" ≠ "testnet") →
       ∃ msg, tradesEndpointGate address network = .badRequest msg) ∧
    (tradesEndpointGate address network = .upstream →
       ∃ a, address = some a ∧ isValidEvmAddress a = true ∧
         (jsStrOr network "mainnet" = "mainnet" ∨ jsStrOr network "mainnet" = "testnet")) ∧
    (jsObjectLookupTruthy (jsStrOr network "mainnet") = false →
       ∃ msg, positionsEndpointGate address network = .badRequest msg) ∧
    (positionsEndpointGate address network = .upstream →
       ∃ a, address = some a ∧ ¬ (a = "") ∧
         jsObjectLookupTruthy (jsStrOr network "mainnet") = true) := by
  refine ⟨?_, ?_, ?_, ?_, ?_⟩
  · intro h
    cases address with
    | none => exact ⟨"Address is required", rfl⟩
    | some a =>
        by_cases he : a = ""
        · exact ⟨"Address is required", by simp [tradesEndpointGate, he]⟩
        · exact ⟨"Invalid EVM address format", by simp [tradesEndpointGate, he, h a rfl]⟩
  · intro hn
    obtain ⟨h1, h2⟩ := hn
    cases address with
    | none => exact ⟨"Address is required", rfl⟩
    | some a =>
        by_cases he : a = ""
        · exact ⟨"Address is required", by simp [tradesEndpointGate, he]⟩
        · by_cases hv : isValidEvmAddress a
          · exact ⟨"Invalid network", by simp [tradesEndpointGate, he, hv, h1, h2]⟩
          · exact ⟨"Invalid EVM address format",
              by simp [tradesEndpointGate, he, Bool.eq_false_iff.mpr hv]⟩
  · intro h
    cases address with
    | none => exact HandlerOutcome.noConfusion h
    | some a =>
        simp only [tradesEndpointGate] at h
        split_ifs at h with he hv hn <;>
          first
            | exact HandlerOutcome.noConfusion h
            | exact ⟨a, rfl, by simpa using hv, by tauto⟩
  · intro hn
    cases address with
    | none => exact ⟨"Address is required", rfl⟩
    | some a =>
        by_cases he : a = ""
        · exact ⟨"Address is required", by simp [positionsEndpointGate, he]⟩
        · exact ⟨"Invalid network", by simp [positionsEndpointGate, he, hn]⟩
  · intro h
    cases address with
    | none => exact HandlerOutcome.noConfusion h
    | some a =>
        simp only [positionsEndpointGate] at h
        split_ifs at h with he hn <;>
          first
            | exact HandlerOutcome.noConfusion h
            | exact ⟨a, rfl, he, by simpa using hn⟩

/-- C7 witness: a request with an unknown network value (one that is also not
an `Object.prototype` member) is rejected by both endpoints before any
upstream call. -/
theorem endpoint_validation_amended_witness :
    (∃ msg, tradesEndpointGate (some "bad") (some "devnet") = .badRequest msg) ∧
    (∃ msg, positionsEndpointGate (some "bad") (some "devnet") = .badRequest msg) :=
  ⟨(endpoint_validation_amended (some "bad") (some "devnet")).2.1
      ⟨by decide, by decide⟩,
   (endpoint_validation_amended (some "bad") (some "devnet")).2.2.2.1
      (by decide)⟩
theorem listInfix_iff {α : Type} [DecidableEq α] (pat : List α) :
    ∀ l : List α, listInfix pat l = true ↔ pat <:+: l := by
  intro l
  induction l with
  | nil =>
      simp [listInfix, List.infix_nil, List.isEmpty_iff]
  | cons c rest ih =>
      simp [listInfix, List.infix_cons_iff, List.isPrefixOf_iff_prefix, ih]

theorem containsSubstr_trans_ucl (et : String)
    (h : containsSubstr et "user_close_order" = true) :
    containsSubstr et "close_order" = true := by
  unfold containsSubstr at h ⊢
  rw [listInfix_iff] at h ⊢
  exact List.IsInfix.trans (by decide) h

theorem openBranch_profitPct (e : EventData) (et : String) (t : Trade) :
    (applyOpenBranch e et t).profitPct = t.profitPct := by
  unfold applyOpenBranch
  repeat' split
  all_goals rfl

theorem closeOrderBranch_profitPct_none (e : EventData) (et : String) (t : Trade)
    (h : e.profit_pct = none) :
    (applyCloseOrderBranch e et t).profitPct = t.profitPct := by
  unfold applyCloseOrderBranch
  rw [h]
  repeat' split
  all_goals rfl

theorem closeOrderBranch_profitPct_nofire (e : EventData) (et : String) (t : Trade)
    (h : (containsSubstr et "close_order" || containsSubstr et "user_close") = false) :
    (applyCloseOrderBranch e et t).profitPct = t.profitPct := by
  unfold applyCloseOrderBranch
  rw [h]
  rfl

theorem userCloseBranch_profitPct_none (e : EventData) (et : String) (t : Trade)
    (h : e.profit_pct = none) :
    (applyUserCloseOrderBranch e et t).profitPct = t.profitPct := by
  unfold applyUserCloseOrderBranch
  rw [h]
  repeat' split
  all_goals rfl

theorem userCloseBranch_profitPct_nofire (e : EventData) (et : String) (t : Trade)
    (h : containsSubstr et "user_close_order" = false) :
    (applyUserCloseOrderBranch e et t).profitPct = t.profitPct := by
  unfold applyUserCloseOrderBranch
  rw [h]
  rfl

theorem userCloseBranch_sets (e : EventData) (et : String) (t : Trade) (p : ℚ)
    (h1 : containsSubstr et "user_close_order" = true) (h2 : e.profit_pct = some p) :
    (applyUserCloseOrderBranch e et t).profitPct = some p := by
  unfold applyUserCloseOrderBranch
  rw [h1, h2]
  repeat' split
  all_goals simp_all

theorem marketCloseBranch_preserves (e : EventData) (et : String) (t : Trade) (q : ℚ)
    (hq : t.profitPct = some q) :
    (applyMarketCloseBranch e et t).profitPct = some q := by
  simp [applyMarketCloseBranch, hq, apply_ite Trade.profitPct]

theorem handlePnlBranch_profitPct (e : EventData) (et : String) (t : Trade) :
    (applyHandleTradePnlBranch e et t).profitPct = t.profitPct := by
  unfold applyHandleTradePnlBranch
  repeat' split
  all_goals simp_all [apply_ite Trade.profitPct]

theorem borrowingBranch_profitPct (e : EventData) (et : String) (t : Trade) :
    (applyHandleTradeBorrowingBranch e et t).profitPct = t.profitPct := by
  unfold applyHandleTradeBorrowingBranch
  repeat' split
  all_goals rfl

theorem closingFeesBranch_profitPct (e : EventData) (et : String) (t : Trade) :
    (applyProcessClosingFeesBranch e et t).profitPct = t.profitPct := by
  unfold applyProcessClosingFeesBranch
  repeat' split
  all_goals rfl

theorem updateOiBranch_profitPct (e : EventData) (et : String) (t : Trade) :
    (applyUpdateOiBranch e et t).profitPct = t.profitPct := by
  unfold applyUpdateOiBranch
  repeat' split
  all_goals rfl

theorem unregisterBranch_preserves (e : EventData) (t : Trade)
    (h : unregProfitOverwrite e = false) :
    (applyUnregisterBranch e (eventTypeLower e) t).profitPct = t.profitPct := by
  unfold unregProfitOverwrite at h
  unfold applyUnregisterBranch
  by_cases hc : containsSubstr (eventTypeLower e) "unregister_trade"
  · rw [if_pos hc]
    rw [hc] at h
    simp only [Bool.true_and] at h
    by_cases hfields : e.collateral_left_in_storage.isSome ∧ e.trade_value_collateral.isSome
    · have h1 : e.collateral_left_in_storage.isSome = true := hfields.1
      have h2 : e.trade_value_collateral.isSome = true := hfields.2
      rw [h1, h2] at h
      simp only [Bool.true_and, Bool.and_true] at h
      have hguard : ¬ (0 < e.collateral_left_in_storage.getD 0 +
          ((e.vault_closing_fee.getD 0) + (e.trigger_fee_collateral.getD 0) +
           (e.gov_fee.getD 0))) := by
        simpa using h
      have hng := hguard
      rw [not_lt] at hng
      repeat' split
      all_goals simp_all [apply_ite Trade.profitPct]
    · repeat' split
      all_goals simp_all
  · rw [if_neg hc]
theorem applyEvent_sets_profitPct (t : Trade) (e : EventData) (p : ℚ)
    (h1 : containsSubstr (eventTypeLower e) "user_close_order" = true)
    (h2 : e.profit_pct = some p)
    (h3 : unregProfitOverwrite e = false) :
    (applyEvent t e).profitPct = some p := by
  simp only [applyEvent]
  rw [updateOiBranch_profitPct, unregisterBranch_preserves e _ h3,
      closingFeesBranch_profitPct, borrowingBranch_profitPct, handlePnlBranch_profitPct]
  exact marketCloseBranch_preserves e _ _ p (userCloseBranch_sets e _ _ p h1 h2)

theorem applyEvent_preserves_profitPct (t : Trade) (e : EventData) (q : ℚ)
    (hov : profitPctOverwrite e = false) (hq : t.profitPct = some q) :
    (applyEvent t e).profitPct = some q := by
  have hco : ((containsSubstr (eventTypeLower e) "close_order" ||
      containsSubstr (eventTypeLower e) "user_close") && e.profit_pct.isSome) = false := by
    unfold profitPctOverwrite at hov
    exact (Bool.or_eq_false_iff.mp hov).1
  have hunreg : unregProfitOverwrite e = false := by
    unfold profitPctOverwrite at hov
    exact (Bool.or_eq_false_iff.mp hov).2
  simp only [applyEvent]
  rw [updateOiBranch_profitPct, unregisterBranch_preserves e _ hunreg,
      closingFeesBranch_profitPct, borrowingBranch_profitPct, handlePnlBranch_profitPct]
  apply marketCloseBranch_preserves
  cases hpp : e.profit_pct with
  | none =>
      rw [userCloseBranch_profitPct_none e _ _ hpp, closeOrderBranch_profitPct_none e _ _ hpp,
          openBranch_profitPct]
      exact hq
  | some v =>
      have hsome : e.profit_pct.isSome = true := by rw [hpp]; rfl
      have hor : (containsSubstr (eventTypeLower e) "close_order" ||
          containsSubstr (eventTypeLower e) "user_close") = false := by
        cases hx : (containsSubstr (eventTypeLower e) "close_order" ||
            containsSubstr (eventTypeLower e) "user_close")
        · rfl
        · rw [hx, hsome] at hco
          exact absurd hco (by simp)
      have hcl : containsSubstr (eventTypeLower e) "close_order" = false :=
        (Bool.or_eq_false_iff.mp hor).1
      have hucl : containsSubstr (eventTypeLower e) "user_close_order" = false := by
        cases hy : containsSubstr (eventTypeLower e) "user_close_order"
        · rfl
        · rw [containsSubstr_trans_ucl _ hy] at hcl
          exact absurd hcl (by simp)
      rw [userCloseBranch_profitPct_nofire e _ _ hucl,
          closeOrderBranch_profitPct_nofire e _ _ hor, openBranch_profitPct]
      exact hq

theorem foldl_preserves_profitPct (post : List EventData) :
    ∀ (t : Trade) (q : ℚ), t.profitPct = some q →
      (∀ e ∈ post, profitPctOverwrite e = false) →
      (post.foldl applyEvent t).profitPct = some q := by
  induction post with
  | nil => intro t q hq _; exact hq
  | cons e rest ih =>
      intro t q hq hall
      rw [List.foldl_cons]
      exact ih _ q (applyEvent_preserves_profitPct t e q (hall e (List.mem_cons_self e rest)) hq)
        (fun e2 he2 => hall e2 (List.mem_cons_of_mem e he2))

/-- C4 (amended): in the log-scan per-transaction loop, a `user_close_order`
event's `profit_pct` determines the final `profitPct` provided no LATER event
overwrites it (a later `close_order`/`user_close` event carrying
`profit_pct`, or a later `unregister_trade` event whose collateral fields
yield a positive derived collateral, does overwrite — see the
counterexample); and the final derived estimate
`(pnlAmount − collateral) / collateral` is applied only when no event set
`profitPct` at all, and only under the guard `collateral > 0`. -/
theorem userCloseOrder_precedence_amended (txHash : String) (ts : ℚ)
    (pre post : List EventData) (e : EventData) (p : ℚ)
    (h1 : containsSubstr (eventTypeLower e) "user_close_order" = true)
    (h2 : e.profit_pct = some p)
    (h3 : unregProfitOverwrite e = false)
    (h4 : ∀ e2 ∈ post, profitPctOverwrite e2 = false) :
    (processTxLogs txHash ts (pre ++ e :: post)).profitPct = some p ∧
    (∀ (events : List EventData) (q : ℚ),
       ((events.foldl applyEvent (initialTrade txHash ts)).profitPct = some q) →
       (processTxLogs txHash ts events).profitPct = some q) ∧
    (∀ events : List EventData,
       (events.foldl applyEvent (initialTrade txHash ts)).profitPct = none →
       ¬ (0 < (events.foldl applyEvent (initialTrade txHash ts)).collateral.getD 0) →
       (processTxLogs txHash ts events).profitPct = none) := by
  have hkeep : ∀ (events : List EventData) (q : ℚ),
      ((events.foldl applyEvent (initialTrade txHash ts)).profitPct = some q) →
      (processTxLogs txHash ts events).profitPct = some q := by
    intro events q hq
    simp only [processTxLogs]
    split
    · rename_i hcond
      rw [hq] at hcond
      exact absurd hcond.2.1 (by simp)
    · exact hq
  refine ⟨?_, hkeep, ?_⟩
  · apply hkeep
    rw [List.foldl_append, List.foldl_cons]
    exact foldl_preserves_profitPct post _ p
      (applyEvent_sets_profitPct _ e p h1 h2 h3) h4
  · intro events hnone hncol
    simp only [processTxLogs]
    split
    · rename_i hcond
      exact absurd hcond.2.2.2.2 hncol
    · exact hnone

/-- C4 witness: the spec's log-scan scenario — an open event followed by a
`user_close_order` with `profit_pct = 0.1` yields `profitPct = 0.1`. -/
theorem userCloseOrder_precedence_amended_witness :
    (processTxLogs "0xw" 0 ([openEvent] ++ ucoEvent :: [])).profitPct = some (1/10) :=
  (userCloseOrder_precedence_amended "0xw" 0 [openEvent] [] ucoEvent (1/10)
    (by with_unfolding_all rfl) (by with_unfolding_all rfl) (by with_unfolding_all rfl)
    (fun e2 h => absurd h (List.not_mem_nil e2))).1
theorem jsNum_ltB_irrefl (a : JsNum) : a.ltB a = false := by
  cases a <;> simp [JsNum.ltB]

theorem jsNum_ltB_trans {a b c : JsNum} (h1 : a.ltB b = true) (h2 : b.ltB c = true) :
    a.ltB c = true := by
  cases a <;> cases b <;> cases c <;> simp_all [JsNum.ltB]
  exact lt_trans h1 h2

theorem inferStep_skip (e : ℚ) (best : String × JsNum) (m : MarketInfo)
    (h : qualifies e m = false) : inferStep e best m = best := by
  simp only [inferStep]
  unfold qualifies at h
  by_cases hp : m.price ≤ 0
  · rw [if_pos hp]
  · rw [if_neg hp]
    have hq : (jsRatio e m.price).ltB (JsNum.fin 5) = false := by
      have : decide (0 < m.price) = true := by simpa using lt_of_not_le hp
      rw [this] at h
      simpa using h
    show (if ((jsRatio e m.price).ltB best.2 && (jsRatio e m.price).ltB (JsNum.fin 5)) =
        true then (m.symbol, jsRatio e m.price) else best) = best
    rw [hq]
    simp

theorem foldl_inferStep_unqualified (e : ℚ) :
    ∀ (l : List MarketInfo) (best : String × JsNum),
      (∀ m ∈ l, qualifies e m = false) → l.foldl (inferStep e) best = best := by
  intro l
  induction l with
  | nil => intro best _; rfl
  | cons m rest ih =>
      intro best h
      rw [List.foldl_cons, inferStep_skip e best m (h m (List.mem_cons_self m rest))]
      exact ih best (fun m2 hm2 => h m2 (List.mem_cons_of_mem m hm2))

theorem foldl_inferStep_min (e : ℚ) (Good : MarketInfo → Prop) :
    ∀ (l : List MarketInfo), (∀ m ∈ l, Good m) →
    ∀ best : String × JsNum,
      (best.2 = JsNum.inf ∨
        ∃ m0, Good m0 ∧ qualifies e m0 = true ∧ best = (m0.symbol, jsRatio e m0.price)) →
      ((l.foldl (inferStep e) best).2 = JsNum.inf ∨
        ∃ m0, Good m0 ∧ qualifies e m0 = true ∧
          l.foldl (inferStep e) best = (m0.symbol, jsRatio e m0.price)) ∧
      (∀ m2 ∈ l, qualifies e m2 = true →
        (jsRatio e m2.price).ltB (l.foldl (inferStep e) best).2 = false) ∧
      ((l.foldl (inferStep e) best).2 = best.2 ∨
        (l.foldl (inferStep e) best).2.ltB best.2 = true) := by
  intro l
  induction l with
  | nil =>
      intro _ best hb
      refine ⟨hb, ?_, Or.inl rfl⟩
      intro m2 hm2
      exact absurd hm2 (List.not_mem_nil m2)
  | cons m rest ih =>
      intro hgood best hb
      rw [List.foldl_cons]
      by_cases hq : qualifies e m = true
      · have hp : m.price ≤ 0 → False := by
          intro hp
          unfold qualifies at hq
          rw [show decide (0 < m.price) = false by simpa using hp] at hq
          simp at hq
        have hratio5 : (jsRatio e m.price).ltB (JsNum.fin 5) = true := by
          unfold qualifies at hq
          exact (Bool.and_eq_true_iff.mp hq).2
        by_cases himp : (jsRatio e m.price).ltB best.2 = true
        · have hstep : inferStep e best m = (m.symbol, jsRatio e m.price) := by
            simp only [inferStep]
            rw [if_neg (fun hle => hp hle)]
            show (if ((jsRatio e m.price).ltB best.2 && (jsRatio e m.price).ltB (JsNum.fin 5)) =
                true then (m.symbol, jsRatio e m.price) else best) = (m.symbol, jsRatio e m.price)
            rw [himp, hratio5]
            rfl
          rw [hstep]
          obtain ⟨hshape, hmin, hmono⟩ := ih (fun m2 hm2 => hgood m2 (List.mem_cons_of_mem m hm2))
            (m.symbol, jsRatio e m.price)
            (Or.inr ⟨m, hgood m (List.mem_cons_self m rest), hq, rfl⟩)
          refine ⟨hshape, ?_, ?_⟩
          · intro m2 hm2 hq2
            rcases List.mem_cons.mp hm2 with hm2e | hm2r
            · subst hm2e
              rcases hmono with heq | hlt
              · rw [heq]
                exact jsNum_ltB_irrefl _
              · cases hcon : (jsRatio e m2.price).ltB (rest.foldl (inferStep e)
                    (m2.symbol, jsRatio e m2.price)).2
                · rfl
                · have := jsNum_ltB_trans hcon hlt
                  rw [jsNum_ltB_irrefl] at this
                  exact absurd this (by simp)
            · exact hmin m2 hm2r hq2
          · rcases hmono with heq | hlt
            · rw [heq]
              exact Or.inr himp
            · exact Or.inr (jsNum_ltB_trans hlt himp)
        · have hstep : inferStep e best m = best := by
            simp only [inferStep]
            rw [if_neg (fun hle => hp hle)]
            show (if ((jsRatio e m.price).ltB best.2 && (jsRatio e m.price).ltB (JsNum.fin 5)) =
                true then (m.symbol, jsRatio e m.price) else best) = best
            rw [show (jsRatio e m.price).ltB best.2 = false by simpa using himp]
            simp
          rw [hstep]
          obtain ⟨hshape, hmin, hmono⟩ := ih (fun m2 hm2 => hgood m2 (List.mem_cons_of_mem m hm2))
            best hb
          refine ⟨hshape, ?_, hmono⟩
          intro m2 hm2 hq2
          rcases List.mem_cons.mp hm2 with hm2e | hm2r
          · subst hm2e
            have hnb : (jsRatio e m2.price).ltB best.2 = false := by simpa using himp
            rcases hmono with heq | hlt
            · rw [heq]
              exact hnb
            · cases hcon : (jsRatio e m2.price).ltB (rest.foldl (inferStep e) best).2
              · rfl
              · have := jsNum_ltB_trans hcon hlt
                rw [hnb] at this
                exact absurd this (by simp)
          · exact hmin m2 hm2r hq2
      · rw [inferStep_skip e best m (by simpa using hq)]
        obtain ⟨hshape, hmin, hmono⟩ := ih (fun m2 hm2 => hgood m2 (List.mem_cons_of_mem m hm2))
          best hb
        refine ⟨hshape, ?_, hmono⟩
        intro m2 hm2 hq2
        rcases List.mem_cons.mp hm2 with hm2e | hm2r
        · subst hm2e
          rw [hq2] at hq
          exact absurd rfl hq
        · exact hmin m2 hm2r hq2
/-- C9: `inferPairFromPrice` returns `"Unknown"` for an empty market list and
when no market qualifies (positive price and price ratio
`max(entry/price, price/entry)` strictly below 5); otherwise it returns the
symbol of a qualifying market whose ratio is minimal among all qualifying
markets. -/
theorem inferPairFromPrice_spec (entryPrice : ℚ) (markets : List MarketInfo) :
    (markets = [] → inferPairFromPrice entryPrice markets = "Unknown") ∧
    ((∀ m ∈ markets, qualifies entryPrice m = false) →
       inferPairFromPrice entryPrice markets = "Unknown") ∧
    (∀ m0 ∈ markets, qualifies entryPrice m0 = true →
       ∃ m ∈ markets, qualifies entryPrice m = true ∧
         inferPairFromPrice entryPrice markets = m.symbol ∧
         ∀ m2 ∈ markets, qualifies entryPrice m2 = true →
           (jsRatio entryPrice m2.price).ltB (jsRatio entryPrice m.price) = false) := by
  refine ⟨?_, ?_, ?_⟩
  · intro h
    subst h
    rfl
  · intro h
    unfold inferPairFromPrice
    by_cases he : markets.isEmpty
    · rw [if_pos he]
    · rw [if_neg he, foldl_inferStep_unqualified entryPrice markets _ h]
  · intro m0 hm0 hq0
    have hne : markets.isEmpty = false := by
      cases markets with
      | nil => exact absurd hm0 (List.not_mem_nil m0)
      | cons a l => rfl
    obtain ⟨hshape, hmin, _⟩ :=
      foldl_inferStep_min entryPrice (fun m => m ∈ markets) markets (fun _ hm => hm)
        ("Unknown", JsNum.inf) (Or.inl rfl)
    rcases hshape with hinf | ⟨m, hgood, hqm, heq⟩
    · exfalso
      have hm0min := hmin m0 hm0 hq0
      rw [hinf] at hm0min
      have hfin : ∃ x, jsRatio entryPrice m0.price = JsNum.fin x := by
        unfold qualifies at hq0
        have h5 := (Bool.and_eq_true_iff.mp hq0).2
        cases hr : jsRatio entryPrice m0.price with
        | fin x => exact ⟨x, rfl⟩
        | inf => rw [hr] at h5; exact absurd h5 (by simp [JsNum.ltB])
      obtain ⟨x, hx⟩ := hfin
      rw [hx] at hm0min
      exact absurd hm0min (by simp [JsNum.ltB])
    · refine ⟨m, hgood, hqm, ?_, ?_⟩
      · unfold inferPairFromPrice
        rw [if_neg (by rw [hne]; exact fun h => Bool.noConfusion h), heq]
      · intro m2 hm2 hq2
        have := hmin m2 hm2 hq2
        rw [heq] at this
        exact this

/-- C9 witness: entry price 90 against markets BTC at 100 and ETH at 10 picks
BTC (ratio 10/9, minimal and below 5). -/
theorem inferPairFromPrice_spec_witness :
    ∃ m ∈ demoMarkets, qualifies 90 m = true ∧
      inferPairFromPrice 90 demoMarkets = m.symbol ∧
      ∀ m2 ∈ demoMarkets, qualifies 90 m2 = true →
        (jsRatio 90 m2.price).ltB (jsRatio 90 m.price) = false :=
  (inferPairFromPrice_spec 90 demoMarkets).2.2 { symbol := "BTC", price := 100 }
    (by simp [demoMarkets]) (by with_unfolding_all rfl)
theorem dropWhile_first_not {α : Type} (p : α → Bool) :
    ∀ (l : List α) (c : α) (rest : List α), l.dropWhile p = c :: rest → p c = false := by
  intro l
  induction l with
  | nil => intro c rest h; exact List.noConfusion h
  | cons a l2 ih =>
      intro c rest h
      rw [List.dropWhile_cons] at h
      split at h
      · exact ih c rest h
      · rename_i hpa
        rw [← List.cons.injEq .. |>.mp h |>.1]
        simpa using hpa

theorem scanToClose_prefix :
    ∀ (l : List Char) (d : ℕ) (acc r : List Char), scanToClose l d acc = some r →
      ∃ s, r = acc ++ s := by
  intro l
  induction l with
  | nil => intro d acc r h; exact Option.noConfusion h
  | cons c rest ih =>
      intro d acc r h
      unfold scanToClose at h
      split at h
      · rcases ih _ _ _ h with ⟨s, hs⟩
        exact ⟨c :: s, by rw [hs]; simp⟩
      · split at h
        · split at h
          · rw [Option.some.injEq] at h
            exact ⟨[c], h.symm⟩
          · rcases ih _ _ _ h with ⟨s, hs⟩
            exact ⟨c :: s, by rw [hs]; simp⟩
        · rcases ih _ _ _ h with ⟨s, hs⟩
          exact ⟨c :: s, by rw [hs]; simp⟩
theorem findJsonSpan_head (text : String) (js : String)
    (h : findJsonSpan text = some js) : js.toList.head? = some lbrace := by
  unfold findJsonSpan at h
  cases htail : text.toList.dropWhile (fun c => ¬ (c = lbrace)) with
  | nil => rw [htail] at h; exact Option.noConfusion h
  | cons c rest =>
      rw [htail] at h
      have hc : c = lbrace := by
        have := dropWhile_first_not (fun c => ¬ (c = lbrace)) text.toList c rest htail
        simpa using this
      have h2 : Option.map String.mk (scanToClose (c :: rest) 0 []) = some js := h
      cases hscan : scanToClose (c :: rest) 0 [] with
      | none => rw [hscan] at h2; exact Option.noConfusion h2
      | some r =>
          rw [hscan, Option.map_some'] at h2
          rw [Option.some.injEq] at h2
          subst h2
          unfold scanToClose at hscan
          rw [if_pos hc] at hscan
          rcases scanToClose_prefix rest 1 ([] ++ [c]) r hscan with ⟨s, hs⟩
          rw [hs, hc]
          rfl

theorem parseJObjFields_obj :
    ∀ (fuel : ℕ) (acc : List (String × JVal)) (cs : List Char) (v : JVal) (r : List Char),
      parseJObjFields fuel acc cs = some (v, r) → ∃ fields, v = JVal.jobj fields := by
  intro fuel
  induction fuel with
  | zero => intro acc cs v r h; exact Option.noConfusion h
  | succ f ih =>
      intro acc cs v r h
      unfold parseJObjFields at h
      repeat' split at h
      all_goals
        first
          | exact Option.noConfusion h
          | exact ih _ _ _ _ h
          | (rw [Option.some.injEq, Prod.mk.injEq] at h; exact ⟨_, h.1.symm⟩)

theorem parseJVal_lbrace_step (f : ℕ) (cs2 : List Char) :
    parseJVal (f + 1) (lbrace :: cs2) =
      (match skipWs cs2 with
       | d :: ds =>
           if d = rbrace then some (.jobj [], ds) else parseJObjFields f [] (skipWs cs2)
       | [] => none) := by
  with_unfolding_all rfl

theorem jsonParse_obj (js : String) (v : JVal) (hp : jsonParse js = some v)
    (hh : js.toList.head? = some lbrace) : ∃ fields, v = JVal.jobj fields := by
  unfold jsonParse at hp
  cases hcs : js.toList with
  | nil => rw [hcs] at hh; exact Option.noConfusion hh
  | cons c rest =>
      rw [hcs] at hh hp
      have hc : c = lbrace := by simpa using hh
      subst hc
      cases hmid : parseJVal ((lbrace :: rest).length + 1) (skipWs (lbrace :: rest)) with
      | none => rw [hmid] at hp; exact Option.noConfusion hp
      | some pr =>
          obtain ⟨w, r⟩ := pr
          rw [hmid] at hp
          have hp2 : (if skipWs r = [] then some w else none) = some v := hp
          have hws : skipWs (lbrace :: rest) = lbrace :: rest := by
            unfold skipWs
            rw [List.dropWhile_cons, if_neg (by decide)]
          rw [hws, parseJVal_lbrace_step] at hmid
          have hwv : w = v := by
            split at hp2
            · rw [Option.some.injEq] at hp2
              exact hp2
            · exact Option.noConfusion hp2
          subst hwv
          split at hmid
          · rename_i d ds hd
            split at hmid
            · rw [Option.some.injEq, Prod.mk.injEq] at hmid
              exact ⟨[], hmid.1.symm⟩
            · exact parseJObjFields_obj _ _ _ _ _ hmid
          · exact Option.noConfusion hmid
/-- C5: the event decoder is a total function (the modelled `parseEventData`
never throws — every fallible step is explicit): it returns `none` exactly
when nothing recognizable is found (no balanced brace span in the decoded
text, or the strict JSON parse fails and every fallback field extraction
comes up empty), and whenever it returns a value, that value is a record (a
JSON object / field map, possibly partial). -/
theorem parseEventData_never_throws (data : String) :
    (parseEventData data = none ↔
      (findJsonSpan (decodeAbiString data) = none ∨
       ∃ js, findJsonSpan (decodeAbiString data) = some js ∧ jsonParse js = none ∧
             extractFields js.toList = [])) ∧
    (∀ v, parseEventData data = some v → ∃ fields, v = JVal.jobj fields) := by
  constructor
  · unfold parseEventData
    cases hspan : findJsonSpan (decodeAbiString data) with
    | none => simp [hspan]
    | some js =>
        cases hp : jsonParse js with
        | some v => simp [hspan, hp]
        | none =>
            by_cases hf : extractFields js.toList = []
            · simp [hspan, hp, hf, List.isEmpty_iff, String.toList]
            · simp [hspan, hp, hf, List.isEmpty_iff, String.toList]
  · intro v hv
    simp only [parseEventData] at hv
    cases hspan : findJsonSpan (decodeAbiString data) with
    | none => rw [hspan] at hv; exact Option.noConfusion hv
    | some js =>
        rw [hspan] at hv
        have hv2 : (match jsonParse js with
            | some w => some w
            | none =>
                if (extractFields js.toList).isEmpty = true then none
                else some (JVal.jobj (extractFields js.toList))) = some v := hv
        cases hp : jsonParse js with
        | some w =>
            rw [hp] at hv2
            rw [Option.some.injEq] at hv2
            rw [← hv2]
            exact jsonParse_obj js w hp (findJsonSpan_head (decodeAbiString data) js hspan)
        | none =>
            rw [hp] at hv2
            by_cases hf : (extractFields js.toList).isEmpty = true
            · rw [if_pos hf] at hv2
              exact Option.noConfusion hv2
            · rw [if_neg hf] at hv2
              rw [Option.some.injEq] at hv2
              exact ⟨extractFields js.toList, hv2.symm⟩

/-- C5 witness: the empty input decodes to an empty text with no brace span,
so the decoder returns `null` rather than throwing. -/
theorem parseEventData_never_throws_witness : parseEventData "" = none :=
  (parseEventData_never_throws "").1.mpr (Or.inl (by with_unfolding_all rfl))

set_option maxRecDepth 100000 in
/-- Sanity evaluation of the full decoder on a well-formed payload: the
length-prefixed hex decodes and parses into the expected JSON record. -/
theorem parseEventData_decodes_demo :
    parseEventData demoHexPayload =
      some (JVal.jobj [("eventType", JVal.jstr "wasm-sai/perp/user_close_order"),
                       ("profit_pct", JVal.jstr "0.1")]) := by
  with_unfolding_all rfl
